import Mathlib

/-!
Verification development for the sub-bridge proxy (src/routes/chat.ts and
src/utils/token-estimation.ts).  Each section embeds one component of the
source as executable Lean definitions and proves the stated properties.

Modelling conventions:
* JavaScript strings are Lean `String`s (lists of characters); byte-level
  UTF-8 decoding is outside the model.
* JavaScript `undefined`/missing optional fields are `Option.none`; the
  JavaScript truthiness test on an optional string (`if (x)`) is modelled by
  `truthyOpt`, which also rejects the empty string.
* `Math.ceil(n / 3.2)` on a nonnegative integer `n` equals `⌈5n/16⌉`
  (the IEEE-754 quotient never crosses an integer boundary), which is
  `(5*n + 15) / 16` in natural-number division.
-/

/-- Left brace as text (used when assembling JSON strings). -/
def lb : String := "\x7b"

/-- Right brace as text (used when assembling JSON strings). -/
def rb : String := "\x7d"

/-- JavaScript truthiness of an optional string: `undefined`/`null` and the
empty string are falsy. Returns the string when truthy. -/
def truthyOpt : Option String → Option String
  | some s => if s = "" then none else some s
  | none => none

/-- `JSON.stringify` escaping for a single character (the characters used in
this development; other characters serialize as themselves). -/
def jsonEscapeChar (c : Char) : List Char :=
  if c = '"' then ['\\', '"']
  else if c = '\\' then ['\\', '\\']
  else if c = '\n' then ['\\', 'n']
  else if c = '\t' then ['\\', 't']
  else if c = '\r' then ['\\', 'r']
  else [c]

/-- `JSON.stringify` of a string value. -/
def jsonQuote (s : String) : String :=
  "\"" ++ String.mk ((s.data.map jsonEscapeChar).flatten) ++ "\""

/-- Content block in Anthropic (Claude) format, as produced by
`convertMessages` in src/routes/chat.ts. `tool_use.input` carries the JSON
serialization of the input object (inputs are treated as opaque serialized
objects in this model). `other` is a pass-through of an unrecognized block,
carrying its raw JSON. -/
inductive CBlock where
  | text (text : String)
  | image_b64 (media_type : String) (data : String)
  | image_url (url : String)
  | tool_use (id : String) (name : String) (input : String)
  | tool_result (tool_use_id : String) (content : String)
  | other (raw : String)
  deriving DecidableEq, Repr

/-- Message content: either a plain string or an array of content blocks,
exactly the two shapes `convertMessages` produces. -/
inductive MContent where
  | str (s : String)
  | blocks (bs : List CBlock)
  deriving DecidableEq, Repr

/-- A message in Anthropic format (`{role, content}`), the shape
`convertMessages` produces and `truncateMessages` receives at its call site
(line 1000 of src/routes/chat.ts). The OpenAI-side fields `tool_calls` /
`tool_call_id`, which `getToolUseIds`/`getToolResultIds` also probe for
robustness, are always absent in this shape and are omitted from the model. -/
structure Msg where
  role : String
  content : MContent
  deriving DecidableEq, Repr

instance : Inhabited Msg := ⟨⟨"", .str ""⟩⟩

/-- `JSON.stringify` of one content block, with fields in the order the
source constructs them. -/
def stringifyCBlock : CBlock → String
  | .text t => lb ++ "\"type\":\"text\",\"text\":" ++ jsonQuote t ++ rb
  | .image_b64 mt d =>
      lb ++ "\"type\":\"image\",\"source\":" ++ lb ++ "\"type\":\"base64\",\"media_type\":"
        ++ jsonQuote mt ++ ",\"data\":" ++ jsonQuote d ++ rb ++ rb
  | .image_url u =>
      lb ++ "\"type\":\"image\",\"source\":" ++ lb ++ "\"type\":\"url\",\"url\":"
        ++ jsonQuote u ++ rb ++ rb
  | .tool_use i n inp =>
      lb ++ "\"type\":\"tool_use\",\"id\":" ++ jsonQuote i ++ ",\"name\":" ++ jsonQuote n
        ++ ",\"input\":" ++ inp ++ rb
  | .tool_result tid c =>
      lb ++ "\"type\":\"tool_result\",\"tool_use_id\":" ++ jsonQuote tid
        ++ ",\"content\":" ++ jsonQuote c ++ rb
  | .other raw => raw

/-- `JSON.stringify` of a message content value. -/
def stringifyMContent : MContent → String
  | .str s => jsonQuote s
  | .blocks bs => "[" ++ String.intercalate "," (bs.map stringifyCBlock) ++ "]"

/-- `JSON.stringify` of one message. -/
def stringifyMsg (m : Msg) : String :=
  lb ++ "\"role\":" ++ jsonQuote m.role ++ ",\"content\":" ++ stringifyMContent m.content ++ rb

/-- `JSON.stringify` of a message array. -/
def stringifyMessages (ms : List Msg) : String :=
  "[" ++ String.intercalate "," (ms.map stringifyMsg) ++ "]"

/-- `estimateTokens` from src/utils/token-estimation.ts:
`Math.ceil(content.length / 3.2)` (0 for the empty string, which the formula
already gives). -/
def estimateTokens (content : String) : Nat :=
  (5 * content.length + 15) / 16

/-- `getToolUseIds` from src/utils/token-estimation.ts, restricted to the
Anthropic message shape (the `msg.tool_calls` probe is vacuous there):
collect the `id` of every `tool_use` block with a truthy id. -/
def getToolUseIds (msg : Msg) : List String :=
  match msg.content with
  | .blocks bs =>
      bs.foldr (fun b acc =>
        match b with
        | .tool_use i _ _ => if i = "" then acc else i :: acc
        | _ => acc) []
  | _ => []

/-- `getToolResultIds` from src/utils/token-estimation.ts, restricted to the
Anthropic message shape (the `msg.tool_call_id` probe is vacuous there):
collect the `tool_use_id` of every `tool_result` block with a truthy id. -/
def getToolResultIds (msg : Msg) : List String :=
  match msg.content with
  | .blocks bs =>
      bs.foldr (fun b acc =>
        match b with
        | .tool_result tid _ => if tid = "" then acc else tid :: acc
        | _ => acc) []
  | _ => []

/-- Insertion-ordered map update, the semantics of JavaScript `Map.set`:
an existing key keeps its position and gets the new value, a new key is
appended. -/
def mapSet {α β : Type} [DecidableEq α] (m : List (α × β)) (k : α) (v : β) : List (α × β) :=
  if m.any (fun e => decide (e.1 = k)) then
    m.map (fun e => if e.1 = k then (k, v) else e)
  else m ++ [(k, v)]

/-- JavaScript `Map.get`: the value stored at a key, if any. -/
def mapGet? {α β : Type} [DecidableEq α] (m : List (α × β)) (k : α) : Option β :=
  (m.find? (fun e => decide (e.1 = k))).map (·.2)

/-- The id→message-index map construction of `truncateMessages` (lines
1321–1329 of the source): for each message index in order, record every id
the extractor finds at that index. -/
def buildIdIndexMapFrom (getIds : Msg → List String) :
    Nat → List Msg → List (String × Nat) → List (String × Nat)
  | _, [], m => m
  | i, msg :: rest, m =>
      buildIdIndexMapFrom getIds (i + 1) rest ((getIds msg).foldl (fun m id => mapSet m id i) m)

/-- Top-level id→index map builder (starts at index 0 with an empty map). -/
def buildIdIndexMap (getIds : Msg → List String) (messages : List Msg) : List (String × Nat) :=
  buildIdIndexMapFrom getIds 0 messages []

/-- The pair derivation of `truncateMessages` (lines 1332–1338): for every
`tool_use` id, if a `tool_result` references it, map the use index to the
result index. -/
def buildPairs (useMap resMap : List (String × Nat)) : List (Nat × Nat) :=
  useMap.foldl (fun ps e =>
    match mapGet? resMap e.1 with
    | some r => mapSet ps e.2 r
    | none => ps) []

/-- Cost of one message inside `truncateMessages` (line 1341):
`estimateTokens(JSON.stringify(msg)) + 4`. -/
def msgCost (m : Msg) : Nat :=
  estimateTokens (stringifyMsg m) + 4

/-- Mutable state of the inclusion loop of `truncateMessages`: the `include`
set (as a list of indices, JavaScript `Set` semantics need only membership)
and `currentTokens`. -/
structure TruncState where
  incl : List Nat
  curr : Nat
  deriving Repr

/-- One iteration of the newest-to-oldest inclusion loop of
`truncateMessages` (lines 1348–1384), at message index `i`. -/
def truncStep (tokens : List Nat) (pairs : List (Nat × Nat)) (avail : Nat)
    (st : TruncState) (i : Nat) : TruncState :=
  if i ∈ st.incl then st
  else
    let tn := tokens.getD i 0
    let paired1 := mapGet? pairs i
    let pt1 :=
      match paired1 with
      | some a => if a ∈ st.incl then tn else tn + tokens.getD a 0
      | none => tn
    let found := pairs.find? (fun ur => decide (ur.2 = i) && decide (ur.1 ∉ st.incl))
    let pairedIndex := match found with | some ur => some ur.1 | none => paired1
    let pairTokens := match found with | some ur => pt1 + tokens.getD ur.1 0 | none => pt1
    if st.curr + pairTokens ≤ avail then
      let incl1 := i :: st.incl
      let curr1 := st.curr + tn
      match pairedIndex with
      | some p => if p ∈ incl1 then ⟨incl1, curr1⟩ else ⟨p :: incl1, curr1 + tokens.getD p 0⟩
      | none => ⟨incl1, curr1⟩
    else st

/-- Reassembly of the kept subset in original order (lines 1387–1392):
keep `messages[i]` exactly when `i` is in the include set. -/
def keepByIndex (incl : List Nat) : Nat → List Msg → List Msg
  | _, [] => []
  | i, m :: rest =>
      if i ∈ incl then m :: keepByIndex incl (i + 1) rest else keepByIndex incl (i + 1) rest

/-- `TruncationResult` from src/utils/token-estimation.ts. -/
structure TruncationResult where
  messages : List Msg
  truncated : Bool
  removedCount : Nat
  truncationNotice : Option String
  deriving DecidableEq, Repr

/-- `truncateMessages` from src/utils/token-estimation.ts (lines 1295–1407
of the concatenated source): sliding-window truncation, newest first, with
tool_use/tool_result pair handling. `targetTokens`, `systemTokens` and
`toolsTokens` are the nonnegative token estimates of the caller;
`availableForMessages <= 0` is the first guard. -/
def truncateMessages (messages : List Msg)
    (targetTokens systemTokens toolsTokens : Nat) : TruncationResult :=
  if targetTokens ≤ systemTokens + toolsTokens then
    { messages := []
      truncated := true
      removedCount := messages.length
      truncationNotice := some "Warning: System prompt and tools exceed context limit. Unable to include any conversation history." }
  else
    let availableForMessages := targetTokens - systemTokens - toolsTokens
    if messages.length = 0 then
      { messages := [], truncated := false, removedCount := 0, truncationNotice := none }
    else
      let toolUseIdToIndex := buildIdIndexMap getToolUseIds messages
      let toolResultIdToIndex := buildIdIndexMap getToolResultIds messages
      let pairs := buildPairs toolUseIdToIndex toolResultIdToIndex
      let messageTokens := messages.map msgCost
      let final := ((List.range messages.length).reverse).foldl
        (truncStep messageTokens pairs availableForMessages) ⟨[], 0⟩
      let result := keepByIndex final.incl 0 messages
      let removedCount := messages.length - result.length
      { messages := result
        truncated := decide (0 < removedCount)
        removedCount := removedCount
        truncationNotice :=
          if 0 < removedCount then
            some ("[Context truncated: " ++ toString removedCount
              ++ " earlier message(s) removed to fit within token limit]")
          else none }

/-! ### Generic facts about the insertion-ordered map model -/

/-- `mapSet` preserves an entry-wise predicate when the new entry satisfies it. -/
theorem mapSet_forall {α β : Type} [DecidableEq α] {P : α × β → Prop}
    {m : List (α × β)} {k : α} {v : β}
    (hm : ∀ e ∈ m, P e) (hkv : P (k, v)) : ∀ e ∈ mapSet m k v, P e := by
  intro e he
  unfold mapSet at he
  split at he
  · obtain ⟨x, hx, hfx⟩ := List.mem_map.mp he
    by_cases hxk : x.1 = k
    · rw [if_pos hxk] at hfx
      rw [← hfx]
      exact hkv
    · rw [if_neg hxk] at hfx
      rw [← hfx]
      exact hm x hx
  · rcases List.mem_append.mp he with h | h
    · exact hm e h
    · simp only [List.mem_singleton] at h
      rw [h]
      exact hkv

/-- A successful `mapGet?` returns a stored entry. -/
theorem mapGet?_mem {α β : Type} [DecidableEq α] {m : List (α × β)} {k : α} {v : β}
    (h : mapGet? m k = some v) : (k, v) ∈ m := by
  unfold mapGet? at h
  cases hf : m.find? (fun e => decide (e.1 = k)) with
  | none => rw [hf] at h; simp at h
  | some e =>
      rw [hf] at h
      have hmem := List.mem_of_find?_eq_some hf
      have hpred := List.find?_some hf
      simp only [decide_eq_true_eq] at hpred
      simp only [Option.map_some', Option.some.injEq] at h
      cases e with
      | mk a b =>
          simp only at hpred h
          rw [← hpred, ← h]
          exact hmem

/-- Folding `mapSet` over a list of ids preserves an entry-wise predicate. -/
theorem foldl_mapSet_ids_forall {P : String × Nat → Prop} (i : Nat) :
    ∀ (ids : List String) (m : List (String × Nat)),
      (∀ e ∈ m, P e) → (∀ id ∈ ids, P (id, i)) →
      ∀ e ∈ ids.foldl (fun m id => mapSet m id i) m, P e := by
  intro ids
  induction ids with
  | nil => intro m hm _ e he; exact hm e he
  | cons id rest ih =>
      intro m hm hids e he
      exact ih (mapSet m id i) (mapSet_forall hm (hids id (List.mem_cons_self _ _)))
        (fun x hx => hids x (List.mem_cons_of_mem _ hx)) e he

/-- Every entry of the constructed id→index map points at an index in range
holding that id. -/
theorem buildIdIndexMapFrom_forall (getIds : Msg → List String) {P : String × Nat → Prop} :
    ∀ (rest : List Msg) (i : Nat) (m : List (String × Nat)),
      (∀ e ∈ m, P e) →
      (∀ k, k < rest.length → ∀ id ∈ getIds (rest.getD k default), P (id, i + k)) →
      ∀ e ∈ buildIdIndexMapFrom getIds i rest m, P e := by
  intro rest
  induction rest with
  | nil => intro i m hm _ e he; exact hm e he
  | cons msg rest ih =>
      intro i m hm hidx e he
      refine ih (i + 1) _ ?_ ?_ e he
      · refine foldl_mapSet_ids_forall i _ m hm ?_
        intro id hid
        have h0 := hidx 0 (by simp) id
        simp only [List.getD_cons_zero, Nat.add_zero] at h0
        exact h0 hid
      · intro k hk id hid
        have h1 := hidx (k + 1) (by simpa using Nat.succ_lt_succ hk) id
        simp only [List.getD_cons_succ] at h1
        have : i + (k + 1) = i + 1 + k := by omega
        rw [this] at h1
        exact h1 hid

/-- Every pair derived by `buildPairs` joins a use-map entry and a result-map
entry with the same id. -/
theorem buildPairs_forall {useMap resMap : List (String × Nat)} {Q : Nat × Nat → Prop}
    (h : ∀ id u r, (id, u) ∈ useMap → (id, r) ∈ resMap → Q (u, r)) :
    ∀ e ∈ buildPairs useMap resMap, Q e := by
  unfold buildPairs
  suffices H : ∀ (l : List (String × Nat)), (∀ e ∈ l, e ∈ useMap) →
      ∀ ps, (∀ e ∈ ps, Q e) →
      ∀ e ∈ l.foldl (fun ps e => match mapGet? resMap e.1 with
        | some r => mapSet ps e.2 r
        | none => ps) ps, Q e by
    exact H useMap (fun _ h => h) [] (by simp)
  intro l
  induction l with
  | nil => intro _ ps hps e he; exact hps e he
  | cons x rest ih =>
      intro hl ps hps e he
      refine ih (fun e he => hl e (List.mem_cons_of_mem _ he)) _ ?_ e he
      show ∀ e ∈ (match mapGet? resMap x.1 with
        | some r => mapSet ps x.2 r
        | none => ps), Q e
      cases hg : mapGet? resMap x.1 with
      | none => exact hps
      | some r =>
          refine mapSet_forall hps ?_
          exact h x.1 x.2 r (by simpa using hl x (List.mem_cons_self _ _)) (mapGet?_mem hg)

/-! ### Summation facts used by the truncation proofs -/

/-- Reading back a list by indices `0..length-1` reproduces the list. -/
theorem map_getD_range (tokens : List Nat) :
    (List.range tokens.length).map (fun j => tokens.getD j 0) = tokens := by
  induction tokens with
  | nil => rfl
  | cons a rest ih =>
      rw [List.length_cons, List.range_succ_eq_map, List.map_cons]
      have h2 : ((List.range rest.length).map Nat.succ).map (fun j => (a :: rest).getD j 0)
          = (List.range rest.length).map (fun j => rest.getD j 0) := by
        rw [List.map_map]
        apply List.map_congr_left
        intro j _
        rfl
      rw [h2, ih]
      rfl

/-- The message costs of any duplicate-free set of in-range indices sum to at
most the total cost. -/
theorem sum_getD_le_sum (tokens : List Nat) (l : List Nat)
    (hnd : l.Nodup) (hlt : ∀ j ∈ l, j < tokens.length) :
    (l.map (fun j => tokens.getD j 0)).sum ≤ tokens.sum := by
  have hsub : l ⊆ List.range tokens.length := fun j hj => List.mem_range.mpr (hlt j hj)
  obtain ⟨l', hperm, hsl⟩ := List.subperm_of_subset hnd hsub
  calc (l.map (fun j => tokens.getD j 0)).sum
      = (l'.map (fun j => tokens.getD j 0)).sum := ((hperm.map _).sum_eq).symm
    _ ≤ ((List.range tokens.length).map (fun j => tokens.getD j 0)).sum :=
        (hsl.map _).sum_le_sum (fun a _ => Nat.zero_le a)
    _ = tokens.sum := by rw [map_getD_range]

/-! ### The inclusion loop of `truncateMessages` keeps everything when the
whole conversation fits -/

/-- Invariant of the inclusion loop: the include set is duplicate-free, all
its indices are in range, and `currentTokens` is the cost of the included
messages. -/
def TruncInv (tokens : List Nat) (st : TruncState) : Prop :=
  st.incl.Nodup ∧ (∀ j ∈ st.incl, j < tokens.length) ∧
    st.curr = (st.incl.map (fun j => tokens.getD j 0)).sum

/-- One step of the inclusion loop, under a budget that covers the whole
conversation and with no message carrying both use and result markers,
includes its index and preserves the invariant and the included set. -/
theorem truncStep_includes
    (tokens : List Nat) (pairs : List (Nat × Nat)) (avail : Nat)
    (U R : Nat → Prop)
    (hpairs : ∀ ur ∈ pairs, ur.1 < tokens.length ∧ ur.2 < tokens.length ∧ U ur.1 ∧ R ur.2)
    (hpure : ∀ i, ¬ (U i ∧ R i))
    (hsum : tokens.sum ≤ avail)
    (st : TruncState) (i : Nat) (hi : i < tokens.length)
    (hInv : TruncInv tokens st) :
    TruncInv tokens (truncStep tokens pairs avail st i) ∧
    i ∈ (truncStep tokens pairs avail st i).incl ∧
    st.incl ⊆ (truncStep tokens pairs avail st i).incl := by
  obtain ⟨hnd, hlt, hcurr⟩ := hInv
  by_cases hmem : i ∈ st.incl
  · unfold truncStep
    rw [if_pos hmem]
    exact ⟨⟨hnd, hlt, hcurr⟩, hmem, fun _ h => h⟩
  · cases hpg : mapGet? pairs i with
    | some a =>
        have hia := mapGet?_mem hpg
        obtain ⟨hiU, haR, hUi, hRa⟩ := hpairs _ hia
        have hfind : pairs.find?
            (fun ur => decide (ur.2 = i) && decide (ur.1 ∉ st.incl)) = none := by
          apply List.find?_eq_none.mpr
          intro ur hur
          obtain ⟨_, _, _, hRur⟩ := hpairs ur hur
          simp only [Bool.and_eq_true, decide_eq_true_eq, not_and]
          intro h2 _
          exact absurd ⟨hUi, h2 ▸ hRur⟩ (hpure i)
        have hai : a ≠ i := by
          intro h
          exact absurd ⟨hUi, h ▸ hRa⟩ (hpure i)
        unfold truncStep
        rw [if_neg hmem, hpg, hfind]
        by_cases hain : a ∈ st.incl
        · have hcond : st.curr + (if a ∈ st.incl then tokens.getD i 0
              else tokens.getD i 0 + tokens.getD a 0) ≤ avail := by
            rw [if_pos hain, hcurr]
            have := sum_getD_le_sum tokens (i :: st.incl)
              (List.nodup_cons.mpr ⟨hmem, hnd⟩)
              (by intro j hj; rcases List.mem_cons.mp hj with h | h
                  · exact h ▸ hi
                  · exact hlt j h)
            simp only [List.map_cons, List.sum_cons] at this
            omega
          simp only [hcond, if_true]
          have hmem1 : a ∈ i :: st.incl := List.mem_cons_of_mem _ hain
          simp only [hain, if_true, hmem1]
          refine ⟨⟨List.nodup_cons.mpr ⟨hmem, hnd⟩, ?_, ?_⟩, List.mem_cons_self _ _,
            fun x hx => List.mem_cons_of_mem _ hx⟩
          · intro j hj
            rcases List.mem_cons.mp hj with h | h
            · exact h ▸ hi
            · exact hlt j h
          · simp only [List.map_cons, List.sum_cons]
            omega
        · have hcond : st.curr + (if a ∈ st.incl then tokens.getD i 0
              else tokens.getD i 0 + tokens.getD a 0) ≤ avail := by
            rw [if_neg hain, hcurr]
            have := sum_getD_le_sum tokens (i :: a :: st.incl)
              (by refine List.nodup_cons.mpr ⟨?_, List.nodup_cons.mpr ⟨hain, hnd⟩⟩
                  intro h
                  rcases List.mem_cons.mp h with h | h
                  · exact hai h.symm
                  · exact hmem h)
              (by intro j hj
                  rcases List.mem_cons.mp hj with h | h
                  · exact h ▸ hi
                  rcases List.mem_cons.mp h with h | h
                  · exact h ▸ haR
                  · exact hlt j h)
            simp only [List.map_cons, List.sum_cons] at this
            omega
          simp only [hcond, if_true]
          have hmem1 : a ∉ i :: st.incl := by
            intro h
            rcases List.mem_cons.mp h with h | h
            · exact hai h
            · exact hain h
          simp only [hain, if_false, hmem1]
          refine ⟨⟨?_, ?_, ?_⟩, ?_, ?_⟩
          · refine List.nodup_cons.mpr ⟨hmem1, List.nodup_cons.mpr ⟨hmem, hnd⟩⟩
          · intro j hj
            rcases List.mem_cons.mp hj with h | h
            · exact h ▸ haR
            rcases List.mem_cons.mp h with h | h
            · exact h ▸ hi
            · exact hlt j h
          · simp only [List.map_cons, List.sum_cons]
            omega
          · exact List.mem_cons_of_mem _ (List.mem_cons_self _ _)
          · exact fun x hx => List.mem_cons_of_mem _ (List.mem_cons_of_mem _ hx)
    | none =>
        cases hfind : pairs.find?
            (fun ur => decide (ur.2 = i) && decide (ur.1 ∉ st.incl)) with
        | some ur =>
            have hur := List.mem_of_find?_eq_some hfind
            have hpred := List.find?_some hfind
            simp only [Bool.and_eq_true, decide_eq_true_eq] at hpred
            obtain ⟨hr2, hnotin⟩ := hpred
            obtain ⟨hu1, hu2, hUur, hRur⟩ := hpairs ur hur
            have hRi : R i := hr2 ▸ hRur
            have hne : ur.1 ≠ i := by
              intro h
              exact absurd ⟨h ▸ hUur, hRi⟩ (hpure i)
            unfold truncStep
            rw [if_neg hmem, hpg, hfind]
            have hcond : st.curr + (tokens.getD i 0 + tokens.getD ur.1 0) ≤ avail := by
              rw [hcurr]
              have := sum_getD_le_sum tokens (i :: ur.1 :: st.incl)
                (by refine List.nodup_cons.mpr ⟨?_, List.nodup_cons.mpr ⟨hnotin, hnd⟩⟩
                    intro h
                    rcases List.mem_cons.mp h with h | h
                    · exact hne h.symm
                    · exact hmem h)
                (by intro j hj
                    rcases List.mem_cons.mp hj with h | h
                    · exact h ▸ hi
                    rcases List.mem_cons.mp h with h | h
                    · exact h ▸ hu1
                    · exact hlt j h)
              simp only [List.map_cons, List.sum_cons] at this
              omega
            simp only [hcond, if_true]
            have hmem1 : ur.1 ∉ i :: st.incl := by
              intro h
              rcases List.mem_cons.mp h with h | h
              · exact hne h
              · exact hnotin h
            simp only [hmem1, if_false]
            refine ⟨⟨?_, ?_, ?_⟩, ?_, ?_⟩
            · exact List.nodup_cons.mpr ⟨hmem1, List.nodup_cons.mpr ⟨hmem, hnd⟩⟩
            · intro j hj
              rcases List.mem_cons.mp hj with h | h
              · exact h ▸ hu1
              rcases List.mem_cons.mp h with h | h
              · exact h ▸ hi
              · exact hlt j h
            · simp only [List.map_cons, List.sum_cons]
              omega
            · exact List.mem_cons_of_mem _ (List.mem_cons_self _ _)
            · exact fun x hx => List.mem_cons_of_mem _ (List.mem_cons_of_mem _ hx)
        | none =>
            unfold truncStep
            rw [if_neg hmem, hpg, hfind]
            have hcond : st.curr + tokens.getD i 0 ≤ avail := by
              rw [hcurr]
              have := sum_getD_le_sum tokens (i :: st.incl)
                (List.nodup_cons.mpr ⟨hmem, hnd⟩)
                (by intro j hj; rcases List.mem_cons.mp hj with h | h
                    · exact h ▸ hi
                    · exact hlt j h)
              simp only [List.map_cons, List.sum_cons] at this
              omega
            simp only [hcond, if_true]
            refine ⟨⟨List.nodup_cons.mpr ⟨hmem, hnd⟩, ?_, ?_⟩, List.mem_cons_self _ _,
              fun x hx => List.mem_cons_of_mem _ hx⟩
            · intro j hj
              rcases List.mem_cons.mp hj with h | h
              · exact h ▸ hi
              · exact hlt j h
            · simp only [List.map_cons, List.sum_cons]
              omega

/-- Folding the inclusion step over any in-range index list includes every
processed index and preserves the invariant and the already-included set. -/
theorem truncFold_includes
    (tokens : List Nat) (pairs : List (Nat × Nat)) (avail : Nat)
    (U R : Nat → Prop)
    (hpairs : ∀ ur ∈ pairs, ur.1 < tokens.length ∧ ur.2 < tokens.length ∧ U ur.1 ∧ R ur.2)
    (hpure : ∀ i, ¬ (U i ∧ R i))
    (hsum : tokens.sum ≤ avail) :
    ∀ (idxs : List Nat), (∀ i ∈ idxs, i < tokens.length) →
      ∀ st, TruncInv tokens st →
        TruncInv tokens (idxs.foldl (truncStep tokens pairs avail) st) ∧
        st.incl ⊆ (idxs.foldl (truncStep tokens pairs avail) st).incl ∧
        ∀ i ∈ idxs, i ∈ (idxs.foldl (truncStep tokens pairs avail) st).incl := by
  intro idxs
  induction idxs with
  | nil =>
      intro _ st hInv
      exact ⟨hInv, fun _ h => h, by simp⟩
  | cons i rest ih =>
      intro hbound st hInv
      have h1 := truncStep_includes tokens pairs avail U R hpairs hpure hsum st i
        (hbound i (List.mem_cons_self _ _)) hInv
      have h2 := ih (fun j hj => hbound j (List.mem_cons_of_mem _ hj))
        (truncStep tokens pairs avail st i) h1.1
      rw [List.foldl_cons]
      refine ⟨h2.1, fun x hx => h2.2.1 (h1.2.2 hx), ?_⟩
      intro j hj
      rcases List.mem_cons.mp hj with h | h
      · exact h ▸ h2.2.1 h1.2.1
      · exact h2.2.2 j h

/-- When every index of a block of positions is in the include set,
`keepByIndex` keeps the block unchanged. -/
theorem keepByIndex_all (incl : List Nat) :
    ∀ (l : List Msg) (i : Nat), (∀ j, i ≤ j → j < i + l.length → j ∈ incl) →
      keepByIndex incl i l = l := by
  intro l
  induction l with
  | nil => intro i _; rfl
  | cons m rest ih =>
      intro i h
      have hi : i ∈ incl := h i le_rfl (by simp)
      unfold keepByIndex
      rw [if_pos hi, ih (i + 1) (fun j h1 h2 => h j (by omega) (by simp at h2 ⊢; omega))]

/-- The default message holds no tool_use ids. -/
theorem getToolUseIds_default : getToolUseIds default = [] := rfl

/-- The default message holds no tool_result ids. -/
theorem getToolResultIds_default : getToolResultIds default = [] := rfl

/-- C8 (amended): for every message list in which no single message carries
both tool_use ids and tool_result ids, whenever the available message budget
`targetTokens - systemTokens - toolsTokens` is positive and the total
estimated cost of the messages fits inside it, `truncateMessages` returns
the message list unchanged, in the same order, with `truncated = false` and
`removedCount = 0` (and hence is idempotent on such lists). -/
theorem truncateMessages_idempotent_c8
    (messages : List Msg) (targetTokens systemTokens toolsTokens : Nat)
    (hbudget : systemTokens + toolsTokens < targetTokens)
    (hpure : ∀ m ∈ messages, getToolUseIds m = [] ∨ getToolResultIds m = [])
    (hfits : (messages.map msgCost).sum ≤ targetTokens - systemTokens - toolsTokens) :
    truncateMessages messages targetTokens systemTokens toolsTokens =
      { messages := messages, truncated := false, removedCount := 0,
        truncationNotice := none } := by
  simp only [truncateMessages]
  rw [if_neg (by omega)]
  by_cases hn : messages.length = 0
  · rw [if_pos hn]
    have hnil : messages = [] := List.length_eq_zero.mp hn
    rw [hnil]
  · rw [if_neg hn]
    have htl : (messages.map msgCost).length = messages.length := List.length_map _ _
    have husemap : ∀ e ∈ buildIdIndexMap getToolUseIds messages,
        e.2 < messages.length ∧ e.1 ∈ getToolUseIds (messages.getD e.2 default) := by
      refine buildIdIndexMapFrom_forall getToolUseIds messages 0 [] (by simp) ?_
      intro k hk id hid
      rw [Nat.zero_add]
      exact ⟨hk, hid⟩
    have hresmap : ∀ e ∈ buildIdIndexMap getToolResultIds messages,
        e.2 < messages.length ∧ e.1 ∈ getToolResultIds (messages.getD e.2 default) := by
      refine buildIdIndexMapFrom_forall getToolResultIds messages 0 [] (by simp) ?_
      intro k hk id hid
      rw [Nat.zero_add]
      exact ⟨hk, hid⟩
    have hpure' : ∀ i, ¬ ((fun i => getToolUseIds (messages.getD i default) ≠ []) i ∧
        (fun i => getToolResultIds (messages.getD i default) ≠ []) i) := by
      intro i hb
      obtain ⟨hU, hR⟩ := hb
      by_cases hlt : i < messages.length
      · have hm : messages.getD i default ∈ messages := by
          rw [List.getD_eq_getElem messages default hlt]
          exact List.getElem_mem hlt
        rcases hpure _ hm with h | h
        · exact hU h
        · exact hR h
      · rw [List.getD_eq_default messages default (Nat.le_of_not_lt hlt)] at hU
        exact hU getToolUseIds_default
    have hpairs : ∀ ur ∈ buildPairs (buildIdIndexMap getToolUseIds messages)
        (buildIdIndexMap getToolResultIds messages),
        ur.1 < (messages.map msgCost).length ∧ ur.2 < (messages.map msgCost).length ∧
        (fun i => getToolUseIds (messages.getD i default) ≠ []) ur.1 ∧
        (fun i => getToolResultIds (messages.getD i default) ≠ []) ur.2 := by
      refine buildPairs_forall ?_
      intro id u r hu hr
      obtain ⟨hu1, hu2⟩ := husemap _ hu
      obtain ⟨hr1, hr2⟩ := hresmap _ hr
      exact ⟨htl ▸ hu1, htl ▸ hr1, List.ne_nil_of_mem hu2, List.ne_nil_of_mem hr2⟩
    have hfold := truncFold_includes (messages.map msgCost)
      (buildPairs (buildIdIndexMap getToolUseIds messages)
        (buildIdIndexMap getToolResultIds messages))
      (targetTokens - systemTokens - toolsTokens)
      (fun i => getToolUseIds (messages.getD i default) ≠ [])
      (fun i => getToolResultIds (messages.getD i default) ≠ [])
      hpairs hpure' hfits
      ((List.range messages.length).reverse)
      (by intro i hi
          rw [htl]
          exact List.mem_range.mp (List.mem_reverse.mp hi))
      ⟨[], 0⟩ ⟨List.nodup_nil, by simp, by simp⟩
    have hall : ∀ j, j < messages.length →
        j ∈ (((List.range messages.length).reverse).foldl
          (truncStep (messages.map msgCost)
            (buildPairs (buildIdIndexMap getToolUseIds messages)
              (buildIdIndexMap getToolResultIds messages))
            (targetTokens - systemTokens - toolsTokens)) ⟨[], 0⟩).incl := by
      intro j hj
      exact hfold.2.2 j (List.mem_reverse.mpr (List.mem_range.mpr hj))
    have hkeep : keepByIndex (((List.range messages.length).reverse).foldl
          (truncStep (messages.map msgCost)
            (buildPairs (buildIdIndexMap getToolUseIds messages)
              (buildIdIndexMap getToolResultIds messages))
            (targetTokens - systemTokens - toolsTokens)) ⟨[], 0⟩).incl 0 messages
        = messages := by
      refine keepByIndex_all _ messages 0 ?_
      intro j _ h2
      exact hall j (by simpa using h2)
    rw [hkeep]
    simp [Nat.sub_self]

/-! ### Concrete truncation inputs -/

/-- Assistant turn invoking tool id `a` (first message of the C1 input). -/
def c1m0 : Msg := ⟨"assistant", .blocks [.tool_use "a" "f" (lb ++ rb)]⟩

/-- Assistant turn invoking tool id `b` (second message of the C1 input). -/
def c1m1 : Msg := ⟨"assistant", .blocks [.tool_use "b" "g" (lb ++ rb)]⟩

/-- User turn carrying the results for both `a` and `b` (third message of the
C1 input) — the shape the converter produces when two assistant tool calls
are answered by consecutive tool messages. -/
def c1m2 : Msg := ⟨"user", .blocks [.tool_result "a" "r1", .tool_result "b" "r2"]⟩

/-- The C1 conversation: use `a`, use `b`, then one message with both results. -/
def c1msgs : List Msg := [c1m0, c1m1, c1m2]

/-- A budget that exactly covers the first and third message of `c1msgs`. -/
def c1target : Nat := msgCost c1m0 + msgCost c1m2

set_option maxRecDepth 100000 in
/-- C1: `truncateMessages` separates a tool_use/tool_result pair.  On
`c1msgs` with budget `c1target` it keeps the user message holding the
result for id `b` while dropping the assistant message holding the
matching tool_use `b`: the claimed pair-atomicity invariant fails on the
code (its own doc comment says pairs are kept together).  The length
accounting (`removedCount = 1` out of 3 messages, 2 kept in order) is
also evaluated here. -/
theorem truncateMessages_separates_pair_c1 :
    getToolUseIds c1m1 = ["b"] ∧
    getToolResultIds c1m2 = ["a", "b"] ∧
    (truncateMessages c1msgs c1target 0 0).messages = [c1m0, c1m2] ∧
    c1m1 ∉ (truncateMessages c1msgs c1target 0 0).messages ∧
    (truncateMessages c1msgs c1target 0 0).removedCount = 1 := by
  decide

/-- Message that both uses tool `x` and carries the result of tool `y`. -/
def c8mA : Msg := ⟨"assistant", .blocks [.tool_use "x" "f" (lb ++ rb), .tool_result "y" "r"]⟩

/-- Message that both carries the result of tool `x` and uses tool `y`. -/
def c8mB : Msg := ⟨"user", .blocks [.tool_result "x" "r", .tool_use "y" "g" (lb ++ rb)]⟩

/-- The two mutually paired messages of the C8 counterexample. -/
def c8msgs : List Msg := [c8mA, c8mB]

/-- A budget exactly equal to the total cost of `c8msgs` (the list complies
with the budget). -/
def c8target : Nat := msgCost c8mA + msgCost c8mB

set_option maxRecDepth 100000 in
/-- C8 counterexample: the claim fails as stated on two inputs.
(1) `c8msgs` fits its budget exactly (`msgCost` sums to `c8target`, the
available budget with zero system/tool tokens), yet `truncateMessages`
deletes both messages and reports `truncated = true`: the loop counts the
partner cost twice for a message that carries both a tool_use and a
tool_result.  (2) The empty message list with a zero available budget also
fits (cost 0 ≤ 0), yet the `availableForMessages <= 0` guard reports
`truncated = true`. -/
theorem truncateMessages_not_idempotent_c8_cex :
    ((msgCost c8mA + msgCost c8mB ≤ c8target - 0 - 0) ∧
      (truncateMessages c8msgs c8target 0 0).messages = [] ∧
      (truncateMessages c8msgs c8target 0 0).truncated = true ∧
      (truncateMessages c8msgs c8target 0 0).removedCount = 2) ∧
    (((([] : List Msg).map msgCost).sum ≤ 0 - 0 - 0) ∧
      (truncateMessages [] 0 0 0).truncated = true) := by
  decide

/-- Witness for the amended C8 theorem at a concrete compliant input. -/
theorem truncateMessages_idempotent_c8_witness :
    truncateMessages [⟨"user", MContent.str "hi"⟩] 100 0 0 =
      { messages := [⟨"user", MContent.str "hi"⟩], truncated := false,
        removedCount := 0, truncationNotice := none } :=
  truncateMessages_idempotent_c8 [⟨"user", MContent.str "hi"⟩] 100 0 0
    (by decide) (by decide) (by decide)

/-! ### KeyRouter: parsing the Authorization header (src/routes/chat.ts) -/

/-- The JavaScript `\s` whitespace class (the ASCII part used here). -/
def isWsChar (c : Char) : Bool :=
  decide (c = ' ' ∨ c = '\t' ∨ c = '\n' ∨ c = '\r' ∨ c = '\x0b' ∨ c = '\x0c')

/-- JavaScript `String.trim`. -/
def trimStr (s : String) : String :=
  String.mk (((s.data.dropWhile isWsChar).reverse.dropWhile isWsChar).reverse)

/-- `authHeader.replace(/^Bearer\s+/i, '')`: strip a case-insensitive
`Bearer` prefix followed by at least one whitespace character (and the whole
whitespace run). -/
def bearerStrip (s : String) : String :=
  let l := s.data
  if (l.take 6).map Char.toLower = "bearer".data then
    match l.drop 6 with
    | c :: rest => if isWsChar c then String.mk (rest.dropWhile isWsChar) else s
    | [] => s
  else s

/-- Split on runs of whitespace and drop empty pieces:
`fullToken.split(/\s+/).filter(Boolean)`. -/
def splitWsAux : List Char → List Char → List String
  | [], acc => if acc = [] then [] else [String.mk acc.reverse]
  | c :: rest, acc =>
      if isWsChar c then
        if acc = [] then splitWsAux rest []
        else String.mk acc.reverse :: splitWsAux rest []
      else splitWsAux rest (c :: acc)

/-- Whitespace-splitting entry point. -/
def splitWsStr (s : String) : List String := splitWsAux s.data []

/-- JavaScript `String.split` on a single-character separator (keeps empty
pieces). -/
def splitOnChar (c : Char) : List Char → List (List Char)
  | [] => [[]]
  | x :: rest =>
      let r := splitOnChar c rest
      if x = c then [] :: r
      else
        match r with
        | h :: t => (x :: h) :: t
        | [] => [[x]]

/-- JavaScript `String.lastIndexOf` for a character. -/
def lastIdxOf (c : Char) (l : List Char) : Option Nat :=
  (l.reverse.findIdx? (fun x => decide (x = c))).map (fun k => l.length - 1 - k)

/-- JavaScript `String.indexOf` for a character. -/
def firstIdxOf (c : Char) (l : List Char) : Option Nat :=
  l.findIdx? (fun x => decide (x = c))

/-- `MODEL_ALIASES` from src/routes/chat.ts (short names to full Claude
model ids). -/
def MODEL_ALIASES (m : String) : Option String :=
  if m = "opus-4.5" then some "claude-opus-4-5-20251101"
  else if m = "sonnet-4.5" then some "claude-sonnet-4-5-20250514"
  else none

/-- `ModelMapping` from src/routes/chat.ts (`from` and `to` are Lean
keywords, hence `from'` and `to'`). -/
structure ModelMapping where
  from' : String
  to' : String
  deriving DecidableEq, Repr

/-- `KeyConfig` from src/routes/chat.ts. -/
structure KeyConfig where
  mappings : List ModelMapping
  apiKey : String
  accountId : Option String := none
  deriving DecidableEq, Repr

/-- `OAuthTokens` from src/routes/chat.ts. -/
structure OAuthTokens where
  claudeToken : Option String := none
  claudeRefreshToken : Option String := none
  chatgptToken : Option String := none
  chatgptAccountId : Option String := none
  deriving DecidableEq, Repr

/-- `ParsedKeys` from src/routes/chat.ts. -/
structure ParsedKeys where
  configs : List KeyConfig
  defaultKey : Option String := none
  defaultAccountId : Option String := none
  oauth : Option OAuthTokens := none
  oauthError : Option String := none
  deriving DecidableEq, Repr

/-- `TokenInfo` from src/routes/chat.ts. -/
structure TokenInfo where
  token : String
  accountId : Option String := none
  deriving DecidableEq, Repr

/-- One provider entry of a decrypted bridge-credential payload
(`decodeAccessToken` result, src/oauth/crypto.ts). -/
structure ProviderCred where
  access_token : Option String := none
  refresh_token : Option String := none
  account_id : Option String := none
  deriving DecidableEq, Repr

/-- Decrypted bridge-credential payload: the `providers` record. The
decryption itself (`decodeAccessToken`) is cryptographic and is passed in as
a function `String → Option OAuthPayload`; `none` models a failed
decryption. -/
structure OAuthPayload where
  claude : Option ProviderCred := none
  chatgpt : Option ProviderCred := none
  deriving DecidableEq, Repr

/-- `parseTokenWithAccount` from src/routes/chat.ts: split a trailing
`#accountId` suffix (only when `#` occurs at a positive index). -/
def parseTokenWithAccount (token : String) : TokenInfo :=
  match firstIdxOf '#' token.data with
  | some i =>
      if 0 < i then
        ⟨String.mk (token.data.take i), some (String.mk (token.data.drop (i + 1)))⟩
      else ⟨token, none⟩
  | none => ⟨token, none⟩

/-- `isSubBridgeToken` from src/routes/chat.ts. -/
def isSubBridgeToken (token : String) : Bool :=
  "sb1.".data.isPrefixOf token.data

/-- The error message recorded when a bridge credential fails decryption. -/
def oauthInvalidMsg : String := "OAuth token invalid or expired. Please re-authenticate."

/-- Result of `parseOAuthToken` from src/routes/chat.ts: `null` for a
non-bridge token, an error for a failed decryption, or the extracted
upstream tokens. -/
inductive OAuthParse where
  | nonBridge
  | failed (error : String)
  | parsed (tokens : OAuthTokens)
  deriving DecidableEq, Repr

/-- `parseOAuthToken` from src/routes/chat.ts: each provider field is kept
only when truthy. -/
def parseOAuthToken (decode : String → Option OAuthPayload) (token : String) : OAuthParse :=
  if ¬ isSubBridgeToken token then .nonBridge
  else
    match decode token with
    | none => .failed oauthInvalidMsg
    | some payload =>
        .parsed
          { claudeToken := truthyOpt (payload.claude.bind (·.access_token))
            claudeRefreshToken := truthyOpt (payload.claude.bind (·.refresh_token))
            chatgptToken := truthyOpt (payload.chatgpt.bind (·.access_token))
            chatgptAccountId := truthyOpt (payload.chatgpt.bind (·.account_id)) }

/-- `mergeOAuthTokens` from src/routes/chat.ts: fill each still-unset
(falsy) target field from a truthy incoming field. -/
def mergeOAuthTokens (target incoming : OAuthTokens) : OAuthTokens :=
  { claudeToken :=
      if (truthyOpt incoming.claudeToken).isSome ∧ ¬ (truthyOpt target.claudeToken).isSome
      then incoming.claudeToken else target.claudeToken
    claudeRefreshToken :=
      if (truthyOpt incoming.claudeRefreshToken).isSome ∧
          ¬ (truthyOpt target.claudeRefreshToken).isSome
      then incoming.claudeRefreshToken else target.claudeRefreshToken
    chatgptToken :=
      if (truthyOpt incoming.chatgptToken).isSome ∧ ¬ (truthyOpt target.chatgptToken).isSome
      then incoming.chatgptToken else target.chatgptToken
    chatgptAccountId :=
      if (truthyOpt incoming.chatgptAccountId).isSome ∧
          ¬ (truthyOpt target.chatgptAccountId).isSome
      then incoming.chatgptAccountId else target.chatgptAccountId }

/-- `splitProviderTokens` comma fallback: `single.split(',').map(trim).filter(Boolean)`. -/
def commaFallback (single : String) : List String :=
  ((splitOnChar ',' single.data).map (fun l => trimStr (String.mk l))).filter (fun t => t ≠ "")

/-- `splitProviderTokens` from src/routes/chat.ts (lines 79–100). -/
def splitProviderTokens (fullToken : String) : List String :=
  if fullToken = "" then []
  else
    let bySpace := splitWsStr fullToken
    if 1 < bySpace.length then bySpace
    else
      let single := bySpace.headD ""
      if ¬ single.data.contains ',' then (if single ≠ "" then [single] else [])
      else
        match lastIdxOf ':' single.data with
        | some lastColon =>
            let mappingPart := String.mk (single.data.take lastColon)
            let tokenPart := String.mk (single.data.drop (lastColon + 1))
            if tokenPart.data.contains ',' then
              match ((splitOnChar ',' tokenPart.data).map
                  (fun l => trimStr (String.mk l))).filter (fun t => t ≠ "") with
              | t0 :: trest => (mappingPart ++ ":" ++ t0) :: trest
              | [] => commaFallback single
            else commaFallback single
        | none => commaFallback single

/-- One mapping-list entry: `m.split('=')`, alias-resolve the target, trim
the source. A missing `=`-target (JavaScript `undefined`) is modelled as the
empty string. -/
def makeMappings (mappingsPart : String) : List ModelMapping :=
  (splitOnChar ',' mappingsPart.data).map (fun m =>
    let parts := splitOnChar '=' m
    let fromS := String.mk (parts.headD [])
    let toS := String.mk (parts.getD 1 [])
    ⟨trimStr fromS, (MODEL_ALIASES toS).getD toS⟩)

/-- Accumulator of the token loop inside `parseRoutedKeys`. -/
structure ParseAcc where
  configs : List KeyConfig
  defaultKey : Option String
  defaultAccountId : Option String
  oauthTokens : OAuthTokens
  oauthError : Option String
  deriving DecidableEq, Repr

/-- Append one routed `KeyConfig`. -/
def pushConfig (acc : ParseAcc) (mappingsPart apiKey : String)
    (accountId : Option String) : ParseAcc :=
  { acc with configs := acc.configs ++ [⟨makeMappings mappingsPart, apiKey, accountId⟩] }

/-- One iteration of the token loop of `parseRoutedKeys`
(src/routes/chat.ts lines 168–221). -/
def parseRoutedStep (decode : String → Option OAuthPayload)
    (acc : ParseAcc) (token : String) : ParseAcc :=
  if token = "" then acc
  else if ¬ token.data.contains '=' then
    let parsed := parseTokenWithAccount token
    if isSubBridgeToken parsed.token then
      match parseOAuthToken decode parsed.token with
      | .failed e => { acc with oauthError := some e }
      | .parsed t => { acc with oauthTokens := mergeOAuthTokens acc.oauthTokens t }
      | .nonBridge => acc
    else
      match acc.defaultKey with
      | none => { acc with defaultKey := some parsed.token,
                           defaultAccountId := parsed.accountId }
      | some _ => acc
  else
    match lastIdxOf ':' token.data with
    | none => acc
    | some lastColon =>
        let mappingsPart := String.mk (token.data.take lastColon)
        let parsedToken := parseTokenWithAccount (String.mk (token.data.drop (lastColon + 1)))
        if isSubBridgeToken parsedToken.token then
          match parseOAuthToken decode parsedToken.token with
          | .failed e => { acc with oauthError := some e }
          | .parsed t =>
              let acc1 := { acc with oauthTokens := mergeOAuthTokens acc.oauthTokens t }
              match truthyOpt t.claudeToken with
              | some ct => pushConfig acc1 mappingsPart ct parsedToken.accountId
              | none => acc1
          | .nonBridge => pushConfig acc mappingsPart parsedToken.token parsedToken.accountId
        else pushConfig acc mappingsPart parsedToken.token parsedToken.accountId

/-- `parseRoutedKeys` from src/routes/chat.ts (lines 156–228), parameterized
by the bridge-credential decoder. -/
def parseRoutedKeys (decode : String → Option OAuthPayload)
    (authHeader : Option String) : ParsedKeys :=
  match authHeader with
  | none => { configs := [] }
  | some h =>
      let fullToken := trimStr (bearerStrip h)
      let tokens := splitProviderTokens fullToken
      let acc := tokens.foldl (parseRoutedStep decode) ⟨[], none, none, {}, none⟩
      let hasOAuth := (truthyOpt acc.oauthTokens.claudeToken).isSome
        || (truthyOpt acc.oauthTokens.chatgptToken).isSome
        || (truthyOpt acc.oauthTokens.chatgptAccountId).isSome
      if hasOAuth || (truthyOpt acc.oauthError).isSome then
        { configs := acc.configs, defaultKey := acc.defaultKey,
          defaultAccountId := acc.defaultAccountId,
          oauth := if hasOAuth then some acc.oauthTokens else none,
          oauthError := acc.oauthError }
      else
        { configs := acc.configs, defaultKey := acc.defaultKey,
          defaultAccountId := acc.defaultAccountId }

/-- C2: parsing the Scenario-A header yields one routed config with key
`sk-ant-xxx` whose mappings are, in order, `o3 →` the resolved Opus id and
`o3-mini →` the resolved Sonnet id, plus default key `sk-openai-xxx` — for
any bridge-credential decoder, since the header contains no `sb1.` token. -/
theorem parseRoutedKeys_scenarioA_c2 :
    ∀ decode : String → Option OAuthPayload,
      parseRoutedKeys decode (some "o3=opus-4.5,o3-mini=sonnet-4.5:sk-ant-xxx sk-openai-xxx") =
        { configs := [⟨[⟨"o3", "claude-opus-4-5-20251101"⟩,
            ⟨"o3-mini", "claude-sonnet-4-5-20250514"⟩], "sk-ant-xxx", none⟩],
          defaultKey := some "sk-openai-xxx", defaultAccountId := none,
          oauth := none, oauthError := none } :=
  fun _ => rfl

/-! ### C9: a failing bridge credential short-circuits the request -/

/-- Outcome of the authentication prefix of `handleChatCompletion`
(src/routes/chat.ts lines 841–863): answer a Cursor key-check probe locally,
reject with a 401 `authentication_error` envelope when the parsed keys carry
an `oauthError`, or proceed towards routing and upstream dispatch.  An
upstream request is dispatched only on `proceed`. -/
inductive AuthGate where
  | bypassResponse
  | reject401 (message : String) (etype : String) (code : String)
  | proceed (keys : ParsedKeys)
  deriving DecidableEq, Repr

/-- The authentication gate of `handleChatCompletion`: the Cursor bypass
check (on the body) runs first, then `parseRoutedKeys`, then the
`oauthError` check. -/
def handleChatCompletionAuthGate (decode : String → Option OAuthPayload)
    (isCursorCheck : Bool) (authHeader : Option String) : AuthGate :=
  if isCursorCheck then .bypassResponse
  else
    let parsedKeys := parseRoutedKeys decode authHeader
    match truthyOpt parsedKeys.oauthError with
    | some e => .reject401 e "authentication_error" "authentication_error"
    | none => .proceed parsedKeys

/-- A provider token (as produced by `splitProviderTokens`) whose embedded
credential is a bridge token that fails decryption: mirrors exactly which
credential each branch of the token loop tries to decrypt. -/
def tokenDecryptFails (decode : String → Option OAuthPayload) (token : String) : Bool :=
  if token = "" then false
  else if ¬ token.data.contains '=' then
    let parsed := parseTokenWithAccount token
    isSubBridgeToken parsed.token && (decode parsed.token).isNone
  else
    match lastIdxOf ':' token.data with
    | none => false
    | some lastColon =>
        let parsedToken := parseTokenWithAccount (String.mk (token.data.drop (lastColon + 1)))
        isSubBridgeToken parsedToken.token && (decode parsedToken.token).isNone

/-- `parseOAuthToken` only ever produces the fixed invalid-credential
message. -/
theorem parseOAuthToken_failed {decode : String → Option OAuthPayload} {t : String} {e : String}
    (h : parseOAuthToken decode t = .failed e) : e = oauthInvalidMsg := by
  unfold parseOAuthToken at h
  split at h
  · exact absurd h (by simp)
  · split at h
    · cases h
      rfl
    · exact absurd h (by simp)

/-- A failing token makes the loop record the invalid-credential message. -/
theorem parseRoutedStep_fails {decode : String → Option OAuthPayload} {token : String}
    (acc : ParseAcc) (h : tokenDecryptFails decode token = true) :
    (parseRoutedStep decode acc token).oauthError = some oauthInvalidMsg := by
  unfold tokenDecryptFails at h
  unfold parseRoutedStep
  split at h
  · simp at h
  · split at h
    · -- plain token
      rename_i hne hnoeq
      simp only [Bool.and_eq_true, Option.isNone_iff_eq_none] at h
      rw [if_neg hne, if_pos hnoeq]
      simp only [if_pos h.1]
      unfold parseOAuthToken
      rw [if_neg (by simp [h.1]), h.2]
    · -- routed token
      rename_i hne hhaseq
      rw [if_neg hne, if_neg hhaseq]
      split at h
      · simp at h
      · rename_i lastColon hlc
        simp only [Bool.and_eq_true, Option.isNone_iff_eq_none] at h
        simp only [if_pos h.1]
        unfold parseOAuthToken
        rw [if_neg (by simp [h.1]), h.2]

/-- Once recorded, the invalid-credential message survives every later
iteration of the token loop. -/
theorem parseRoutedStep_keeps {decode : String → Option OAuthPayload} {token : String}
    (acc : ParseAcc) (h : acc.oauthError = some oauthInvalidMsg) :
    (parseRoutedStep decode acc token).oauthError = some oauthInvalidMsg := by
  unfold parseRoutedStep
  simp only []
  by_cases h0 : token = ""
  · rw [if_pos h0]
    exact h
  rw [if_neg h0]
  by_cases h1 : ¬ token.data.contains '=' = true
  · rw [if_pos h1]
    by_cases h2 : isSubBridgeToken (parseTokenWithAccount token).token = true
    · simp only [if_pos h2]
      cases hp : parseOAuthToken decode (parseTokenWithAccount token).token with
      | failed e => simp [parseOAuthToken_failed hp]
      | parsed t => exact h
      | nonBridge => exact h
    · simp only [if_neg h2]
      cases hd : acc.defaultKey with
      | none => exact h
      | some k => exact h
  · rw [if_neg h1]
    cases hlc : lastIdxOf ':' token.data with
    | none => exact h
    | some lastColon =>
        simp only []
        by_cases h2 : isSubBridgeToken
            (parseTokenWithAccount (String.mk (token.data.drop (lastColon + 1)))).token = true
        · simp only [if_pos h2]
          cases hp : parseOAuthToken decode
              (parseTokenWithAccount (String.mk (token.data.drop (lastColon + 1)))).token with
          | failed e => simp [parseOAuthToken_failed hp]
          | parsed t =>
              simp only []
              cases ht : truthyOpt t.claudeToken with
              | some ct => simp only [pushConfig]; exact h
              | none => exact h
          | nonBridge => simp only [pushConfig]; exact h
        · simp only [if_neg h2, pushConfig]
          exact h

/-- Folding the token loop over a list that contains a failing token ends
with the invalid-credential message recorded. -/
theorem parseRoutedFold_fails (decode : String → Option OAuthPayload) :
    ∀ (tokens : List String) (acc : ParseAcc),
      ((∃ t ∈ tokens, tokenDecryptFails decode t = true) ∨
        acc.oauthError = some oauthInvalidMsg) →
      (tokens.foldl (parseRoutedStep decode) acc).oauthError = some oauthInvalidMsg := by
  intro tokens
  induction tokens with
  | nil =>
      intro acc h
      rcases h with h | h
      · obtain ⟨t, ht, _⟩ := h
        exact absurd ht (List.not_mem_nil t)
      · exact h
  | cons t rest ih =>
      intro acc h
      rw [List.foldl_cons]
      rcases h with h | h
      · obtain ⟨u, hu, hfail⟩ := h
        rcases List.mem_cons.mp hu with rfl | hu
        · exact ih _ (Or.inr (parseRoutedStep_fails acc hfail))
        · exact ih _ (Or.inl ⟨u, hu, hfail⟩)
      · exact ih _ (Or.inr (parseRoutedStep_keeps acc h))

/-- C9: any Authorization header containing a bridge credential that fails
decryption — even alongside other valid tokens — makes `parseRoutedKeys`
record the (non-empty) invalid-credential message, and the authentication
gate of `handleChatCompletion` then returns the 401 `authentication_error`
envelope instead of proceeding to routing and upstream dispatch. -/
theorem oauthError_shortCircuit_c9
    (decode : String → Option OAuthPayload) (h : String)
    (hfail : ∃ t ∈ splitProviderTokens (trimStr (bearerStrip h)),
      tokenDecryptFails decode t = true) :
    (parseRoutedKeys decode (some h)).oauthError = some oauthInvalidMsg ∧
    oauthInvalidMsg ≠ "" ∧
    handleChatCompletionAuthGate decode false (some h) =
      .reject401 oauthInvalidMsg "authentication_error" "authentication_error" := by
  have hacc : ((splitProviderTokens (trimStr (bearerStrip h))).foldl (parseRoutedStep decode)
      ⟨[], none, none, {}, none⟩).oauthError = some oauthInvalidMsg :=
    parseRoutedFold_fails decode _ _ (Or.inl hfail)
  have ht : (truthyOpt (some oauthInvalidMsg)).isSome = true := rfl
  have hkeys : (parseRoutedKeys decode (some h)).oauthError = some oauthInvalidMsg := by
    unfold parseRoutedKeys
    simp only []
    rw [hacc, ht, Bool.or_true, if_pos rfl]
  refine ⟨hkeys, by decide, ?_⟩
  unfold handleChatCompletionAuthGate
  rw [if_neg (by simp)]
  simp only []
  rw [hkeys]
  have ht2 : truthyOpt (some oauthInvalidMsg) = some oauthInvalidMsg := rfl
  rw [ht2]

/-- A decoder on which every bridge credential fails decryption. -/
def decodeFailAll : String → Option OAuthPayload := fun _ => none

/-- Witness for C9 at the concrete header `sb1.bad sk-good`: the failing
bridge credential is not silently dropped even though a valid plain key is
present. -/
theorem oauthError_shortCircuit_c9_witness :
    (parseRoutedKeys decodeFailAll (some "sb1.bad sk-good")).oauthError = some oauthInvalidMsg ∧
    oauthInvalidMsg ≠ "" ∧
    handleChatCompletionAuthGate decodeFailAll false (some "sb1.bad sk-good") =
      .reject401 oauthInvalidMsg "authentication_error" "authentication_error" :=
  oauthError_shortCircuit_c9 decodeFailAll "sb1.bad sk-good" (by decide)

/-! ### C6: tool_choice conversion for the Anthropic path -/

/-- Inbound `tool_choice` value shapes for the conversion at
src/routes/chat.ts lines 970–973: a JSON string, JSON `null`, an object
carrying `function.name` (possibly empty, which is falsy), or any other
value, kept opaque. -/
inductive ToolChoiceIn where
  | tcString (s : String)
  | tcNull
  | tcFunction (name : String)
  | tcOther (raw : String)
  deriving DecidableEq, Repr

/-- Outbound `tool_choice` shapes after the conversion: `{type: t}`,
`{type:'tool', name}`, or the inbound value forwarded unchanged. -/
inductive ToolChoiceOut where
  | tcType (t : String)
  | tcTool (name : String)
  | passthrough (orig : ToolChoiceIn)
  deriving DecidableEq, Repr

/-- The `tool_choice` conversion of `handleChatCompletion`
(src/routes/chat.ts lines 970–973).  A `none` result models
`delete body.tool_choice` (the allow-list copy then omits the field);
any value not matched by the four rewrites is left on the body unchanged
and is therefore forwarded. -/
def convertToolChoice : ToolChoiceIn → Option ToolChoiceOut
  | .tcString s =>
      if s = "auto" then some (.tcType "auto")
      else if s = "none" then none
      else if s = "required" then some (.tcType "any")
      else some (.passthrough (.tcString s))
  | .tcNull => none
  | .tcFunction n =>
      if n ≠ "" then some (.tcTool n) else some (.passthrough (.tcFunction n))
  | .tcOther raw => some (.passthrough (.tcOther raw))

/-- C6 counterexample: an unrecognized `tool_choice` shape is NOT dropped
from the outbound body — it is forwarded unchanged. -/
theorem toolChoice_unrecognized_kept_c6_cex :
    convertToolChoice (.tcOther "custom_shape") =
      some (.passthrough (.tcOther "custom_shape")) ∧
    convertToolChoice (.tcOther "custom_shape") ≠ none := by
  decide

/-- C6 (amended): `"auto" → {type:'auto'}`, `"none"` and `null` are removed,
`"required" → {type:'any'}`, `{function:{name}} → {type:'tool', name}` for a
truthy name, and every unrecognized `tool_choice` value (other strings,
objects without a truthy `function.name`) passes through to the outbound
body unchanged rather than being dropped. -/
theorem convertToolChoice_mapping_c6 :
    convertToolChoice (.tcString "auto") = some (.tcType "auto") ∧
    convertToolChoice (.tcString "none") = none ∧
    convertToolChoice .tcNull = none ∧
    convertToolChoice (.tcString "required") = some (.tcType "any") ∧
    (∀ n, n ≠ "" → convertToolChoice (.tcFunction n) = some (.tcTool n)) ∧
    (∀ s, s ≠ "auto" → s ≠ "none" → s ≠ "required" →
      convertToolChoice (.tcString s) = some (.passthrough (.tcString s))) ∧
    (∀ raw, convertToolChoice (.tcOther raw) = some (.passthrough (.tcOther raw))) := by
  refine ⟨rfl, rfl, rfl, rfl, ?_, ?_, fun _ => rfl⟩
  · intro n hn
    simp [convertToolChoice, hn]
  · intro s h1 h2 h3
    simp [convertToolChoice, h1, h2, h3]

/-- Witness for the hypotheses of the C6 mapping theorem at concrete
inputs. -/
theorem convertToolChoice_mapping_c6_witness :
    convertToolChoice (.tcFunction "search") = some (.tcTool "search") ∧
    convertToolChoice (.tcString "weird") = some (.passthrough (.tcString "weird")) :=
  ⟨convertToolChoice_mapping_c6.2.2.2.2.1 "search" (by decide),
   convertToolChoice_mapping_c6.2.2.2.2.2.1 "weird" (by decide) (by decide) (by decide)⟩

/-! ### ContextManager: token estimation and the overflow gate
(src/utils/token-estimation.ts and src/routes/chat.ts lines 982–1029) -/

/-- One system prompt block (`{type:'text', text}`; only `text` matters for
estimation). -/
structure SysBlock where
  text : String
  deriving DecidableEq, Repr

/-- The allow-listed Anthropic request body, restricted to the fields token
estimation reads.  Each tool is carried as its serialized JSON (the
estimator only uses `JSON.stringify(tools).length`). -/
structure CleanBody where
  system : Option (List SysBlock) := none
  messages : Option (List Msg) := none
  tools : Option (List String) := none
  deriving DecidableEq, Repr

/-- `estimateSystemTokens`: sum of `estimateTokens(block.text)`. -/
def estimateSystemTokens : Option (List SysBlock) → Nat
  | none => 0
  | some l => (l.map (fun b => estimateTokens b.text)).sum

/-- `estimateMessagesTokens`:
`estimateTokens(JSON.stringify(messages)) + 4 * messages.length`. -/
def estimateMessagesTokens : Option (List Msg) → Nat
  | none => 0
  | some msgs => estimateTokens (stringifyMessages msgs) + msgs.length * 4

/-- `JSON.stringify` of the serialized tool list. -/
def stringifyToolList (ts : List String) : String :=
  "[" ++ String.intercalate "," ts ++ "]"

/-- `estimateToolsTokens`: `Math.ceil(JSON.stringify(tools).length / 3)`. -/
def estimateToolsTokens : Option (List String) → Nat
  | none => 0
  | some ts => ((stringifyToolList ts).length + 2) / 3

/-- `CLAUDE_MAX_CONTEXT_TOKENS * (1 - SAFETY_MARGIN)`: in IEEE-754 doubles
`1 - 0.05` is 0.94999999999999995559…, and multiplying by 200000 rounds to
exactly 190000.0 (the exact product 189999.99999999991… is within half an
ulp, 2⁻³⁶ ≈ 1.45e-11, of 190000).  So the comparison bound
`effectiveLimit` and its `Math.floor` coincide at 190000: an integer total
is over the limit exactly when it exceeds 190000. -/
def effectiveLimitFloor : Nat := 190000

/-- `TokenEstimation` from src/utils/token-estimation.ts. -/
structure TokenEstimation where
  systemTokens : Nat
  messagesTokens : Nat
  toolsTokens : Nat
  totalTokens : Nat
  isOverLimit : Bool
  overLimitBy : Nat
  deriving DecidableEq, Repr

/-- `estimateRequestTokens` from src/utils/token-estimation.ts. -/
def estimateRequestTokens (body : CleanBody) : TokenEstimation :=
  let s := estimateSystemTokens body.system
  let m := estimateMessagesTokens body.messages
  let t := estimateToolsTokens body.tools
  let total := s + m + t
  { systemTokens := s, messagesTokens := m, toolsTokens := t, totalTokens := total,
    isOverLimit := decide (effectiveLimitFloor < total),
    overLimitBy := if effectiveLimitFloor < total then total - effectiveLimitFloor else 0 }

/-- `ContextOverflowMode` from src/routes/chat.ts. -/
inductive ContextOverflowMode where
  | truncate
  | error
  | warn
  deriving DecidableEq, Repr

/-- Outcome of the context-overflow gate: a 400 rejection (no upstream call)
or an upstream dispatch of the given body. -/
inductive OverflowOutcome where
  | reject400 (etype code : String)
  | dispatch (body : CleanBody)
  deriving DecidableEq, Repr

/-- The context-window validation and truncation block of
`handleChatCompletion` (src/routes/chat.ts lines 982–1029) followed by the
upstream dispatch of the resulting body: `error` rejects with
`context_length_exceeded` before any upstream call, `truncate` truncates and
prepends the notice to the system prompt, `warn` (after logging) and the
in-limit case dispatch the body unmodified. -/
def handleContextOverflow (mode : ContextOverflowMode) (cleanBody : CleanBody) : OverflowOutcome :=
  let tokenEstimate := estimateRequestTokens cleanBody
  if tokenEstimate.isOverLimit then
    match mode with
    | .error => .reject400 "invalid_request_error" "context_length_exceeded"
    | .truncate =>
        let truncationResult := truncateMessages (cleanBody.messages.getD [])
          effectiveLimitFloor tokenEstimate.systemTokens tokenEstimate.toolsTokens
        .dispatch { cleanBody with
          messages := some truncationResult.messages
          system :=
            match truncationResult.truncationNotice, cleanBody.system with
            | some notice, some sys => some (⟨notice⟩ :: sys)
            | _, _ => cleanBody.system }
    | .warn => .dispatch cleanBody
  else .dispatch cleanBody

/-- C3: for every prepared Claude request whose token estimate is over the
limit, mode `error` yields the 400 `context_length_exceeded` rejection (and
hence no upstream dispatch), while mode `warn` dispatches the oversized body
upstream unmodified. -/
theorem contextOverflow_error_warn_c3 (body : CleanBody)
    (hover : (estimateRequestTokens body).isOverLimit = true) :
    handleContextOverflow .error body =
      .reject400 "invalid_request_error" "context_length_exceeded" ∧
    handleContextOverflow .warn body = .dispatch body := by
  constructor <;> simp [handleContextOverflow, hover]

/-- A 640000-character text whose estimated cost alone exceeds the limit. -/
def bigText : String := String.mk (List.replicate 640000 'a')

/-- A concrete over-limit request body. -/
def overBody : CleanBody := { system := some [⟨bigText⟩], messages := some [], tools := none }

/-- Witness for C3: `overBody` is over the limit (estimated 200001 tokens)
and the gate behaves as claimed in both modes. -/
theorem contextOverflow_error_warn_c3_witness :
    (estimateRequestTokens overBody).isOverLimit = true ∧
    handleContextOverflow .error overBody =
      .reject400 "invalid_request_error" "context_length_exceeded" ∧
    handleContextOverflow .warn overBody = .dispatch overBody := by
  have hlen : bigText.length = 640000 := by
    rw [bigText, String.length_mk, List.length_replicate]
  have h1 : estimateTokens bigText = 200000 := by
    rw [estimateTokens, hlen]
  have hsys : estimateSystemTokens overBody.system = 200000 := by
    show estimateSystemTokens (some [⟨bigText⟩]) = 200000
    unfold estimateSystemTokens
    simp only [List.map_cons, List.map_nil, List.sum_cons, List.sum_nil, h1]
    rfl
  have hover : (estimateRequestTokens overBody).isOverLimit = true := by
    unfold estimateRequestTokens
    simp only []
    rw [hsys]
    have hm0 : estimateMessagesTokens (some ([] : List Msg)) = 1 := by decide
    have hm : estimateMessagesTokens overBody.messages = 1 := hm0
    have ht0 : estimateToolsTokens (none : Option (List String)) = 0 := rfl
    have ht : estimateToolsTokens overBody.tools = 0 := ht0
    rw [hm, ht]
    decide
  exact ⟨hover, (contextOverflow_error_warn_c3 overBody hover).1,
    (contextOverflow_error_warn_c3 overBody hover).2⟩

/-! ### StreamTranslator: the Responses-SSE → OpenAI-chunk state machine
(`createChatGptStreamState` / `processChatGptChunk`, src/routes/chat.ts
lines 464–600) -/

/-- Identifier of a processed `output_item.done` item: either carried by the
event (`item.id || item.call_id`) or synthesized.  The synthesized JS id
(`${item.type}_${Date.now()}_${Math.random()…}`) is modelled as a fresh
value from a dedicated sort, drawn from a counter in the state, so that it
can never collide with a carried string id. -/
inductive ItemKey where
  | given (s : String)
  | fresh (n : Nat)
  deriving DecidableEq, Repr

/-- One content block of a Responses `message` item. -/
structure OutBlock where
  otype : Option String := none
  text : Option String := none
  deriving DecidableEq, Repr

/-- A Responses `output_item.done` item. -/
structure RespItem where
  id : Option String := none
  call_id : Option String := none
  itype : Option String := none
  role : Option String := none
  content : List OutBlock := []
  name : Option String := none
  arguments : Option String := none
  deriving DecidableEq, Repr

/-- Upstream usage object; every field may be absent (`??` chains read
them). -/
structure UsageIn where
  input_tokens : Option Nat := none
  output_tokens : Option Nat := none
  prompt_tokens : Option Nat := none
  completion_tokens : Option Nat := none
  total_tokens : Option Nat := none
  deriving DecidableEq, Repr

/-- `payload.response` of a Responses SSE payload. -/
structure RespObj where
  id : Option String := none
  usage : Option UsageIn := none
  deriving DecidableEq, Repr

/-- A decoded Responses SSE JSON payload, restricted to the fields
`processChatGptChunk` reads.  `delta` is `some` exactly when the JS value is
a string (`typeof payload.delta === 'string'`). -/
structure Payload where
  ptype : Option String := none
  delta : Option String := none
  item : Option RespItem := none
  response : Option RespObj := none
  deriving DecidableEq, Repr

/-- `mapUsage` output (OpenAI naming). -/
structure Usage where
  prompt_tokens : Nat
  completion_tokens : Nat
  total_tokens : Nat
  deriving DecidableEq, Repr

/-- `mapUsage` from src/routes/chat.ts (lines 496–506): `??`-chains with a
total defaulting to the sum. -/
def mapUsage : Option UsageIn → Option Usage
  | none => none
  | some u =>
      let prompt := u.input_tokens.getD (u.prompt_tokens.getD 0)
      let completion := u.output_tokens.getD (u.completion_tokens.getD 0)
      let total := u.total_tokens.getD (prompt + completion)
      some ⟨prompt, completion, total⟩

/-- One `tool_calls` entry of an outbound chunk delta. -/
structure ToolCallDelta where
  index : Nat
  id : String
  name : String
  arguments : String
  deriving DecidableEq, Repr

/-- The `delta` of an outbound `chat.completion.chunk`. -/
structure ChunkDelta where
  content : Option String := none
  role : Option String := none
  tool_calls : List ToolCallDelta := []
  deriving DecidableEq, Repr

/-- An outbound `chat.completion.chunk` (the constant `object` field is
omitted). -/
structure Chunk where
  id : String
  created : Nat
  model : String
  delta : ChunkDelta
  finish_reason : Option String
  usage : Option Usage := none
  deriving DecidableEq, Repr

/-- A result of `processChatGptChunk`: an outbound chunk or the `[DONE]`
sentinel. -/
inductive StreamResult where
  | chunk (data : Chunk)
  | done
  deriving DecidableEq, Repr

/-- The per-stream state `createChatGptStreamState` creates, split into the
SSE text buffer and the translation core.  `synthCounter` is the model of
the fresh-id source (see `ItemKey`). -/
structure GCore where
  id : String
  model : String
  created : Nat
  roleSent : Bool
  sawTextDelta : Bool
  toolCallsSeen : Bool
  toolCallIndex : Nat
  processedItemIds : Finset ItemKey
  synthCounter : Nat
  deriving DecidableEq

/-- Full stream state: pending SSE text plus the translation core. -/
structure GState where
  buffer : List Char
  core : GCore
  deriving DecidableEq

/-- `createChatGptStreamState` from src/routes/chat.ts (lines 464–477).
`Date.now()` enters twice (the synthetic response id and `created`); both
are passed in as parameters. -/
def createChatGptStreamState (model idSeed : String) (now : Nat) : GState :=
  ⟨[], ⟨"chatcmpl-" ++ idSeed, model, now, false, false, false, 0, ∅, 0⟩⟩

/-- `createChatChunk` from src/routes/chat.ts (lines 479–494). -/
def createChatChunk (core : GCore) (delta : ChunkDelta) (finishReason : Option String)
    (usage : Option Usage) : Chunk :=
  ⟨core.id, core.created, core.model, delta, finishReason, usage⟩

/-- The carried identifier of an item: `item.id || item.call_id` under
JavaScript truthiness. -/
def itemKeyOf (item : RespItem) : Option String :=
  match truthyOpt item.id with
  | some s => some s
  | none => truthyOpt item.call_id

/-- The dedup key of an item: the carried identifier, or a fresh synthesized
key. -/
def itemKey (core : GCore) (item : RespItem) : ItemKey :=
  match itemKeyOf item with
  | some s => .given s
  | none => .fresh core.synthCounter

/-- `String(id).replace(/^resp_/, '')`. -/
def stripRespPrefix (s : String) : String :=
  if "resp_".data.isPrefixOf s.data then String.mk (s.data.drop 5) else s

/-- The `response.output_item.done` handler of `processChatGptChunk`
(lines 541–588): dedup by item identifier, then emit either late assistant
text (only when no text delta streamed) or a tool-call chunk with the
auto-incrementing index. -/
def processItemDone (core : GCore) (item : RespItem) : GCore × List StreamResult :=
  let key := itemKey core item
  let coreK := if (itemKeyOf item).isNone
    then { core with synthCounter := core.synthCounter + 1 } else core
  if key ∈ coreK.processedItemIds then (coreK, [])
  else
    let core1 := { coreK with processedItemIds := insert key coreK.processedItemIds }
    if item.itype = some "message" ∧ item.role = some "assistant" ∧ ¬ core1.sawTextDelta then
      let text := String.join ((item.content.filter
        (fun b => decide (b.otype = some "output_text") && b.text.isSome)).map
          (fun b => b.text.getD ""))
      if text ≠ "" then
        let delta : ChunkDelta :=
          { content := some text, role := if core1.roleSent then none else some "assistant" }
        let core2 := { core1 with roleSent := true }
        (core2, [.chunk (createChatChunk core2 delta none none)])
      else (core1, [])
    else if item.itype = some "function_call" then
      let core2 := { core1 with toolCallsSeen := true }
      let toolCallId := (truthyOpt item.call_id).getD
        ((truthyOpt item.id).getD ("call_" ++ toString core2.toolCallIndex))
      let delta : ChunkDelta :=
        { role := if core2.roleSent then none else some "assistant"
          tool_calls := [⟨core2.toolCallIndex, toolCallId,
            (truthyOpt item.name).getD "unknown", (truthyOpt item.arguments).getD ""⟩] }
      let core3 := { core2 with toolCallIndex := core2.toolCallIndex + 1, roleSent := true }
      (core3, [.chunk (createChatChunk core3 delta none none)])
    else (core1, [])

/-- The per-payload dispatch of `processChatGptChunk` (lines 526–595). -/
def processEvent (core : GCore) (payload : Payload) : GCore × List StreamResult :=
  if payload.ptype = some "response.created" ∧
      (truthyOpt (payload.response.bind (·.id))).isSome then
    ({ core with id := "chatcmpl-" ++
        stripRespPrefix ((payload.response.bind (·.id)).getD "") }, [])
  else if payload.ptype = some "response.output_text.delta" ∧ payload.delta.isSome then
    let delta : ChunkDelta :=
      { content := some (payload.delta.getD "")
        role := if core.roleSent then none else some "assistant" }
    let core1 := { core with roleSent := true, sawTextDelta := true }
    (core1, [.chunk (createChatChunk core1 delta none none)])
  else if payload.ptype = some "response.output_item.done" ∧ payload.item.isSome then
    match payload.item with
    | some item => processItemDone core item
    | none => (core, [])
  else if payload.ptype = some "response.completed" then
    let usage := mapUsage (payload.response.bind (·.usage))
    let finish := if core.toolCallsSeen then "tool_calls" else "stop"
    (core, [.chunk (createChatChunk core {} (some finish) usage), .done])
  else (core, [])

/-- JavaScript `String.trim` on a character list. -/
def trimChars (l : List Char) : List Char :=
  ((l.dropWhile isWsChar).reverse.dropWhile isWsChar).reverse

/-- One `data:` line of a complete SSE frame (lines 516–525): ignore
non-`data:` lines, trim, skip empty and `[DONE]` payloads, skip JSON decode
failures (the decoder is the `pparse` parameter). -/
def processLine (pparse : String → Option Payload) (core : GCore) (line : List Char) :
    GCore × List StreamResult :=
  if ¬ "data:".data.isPrefixOf line then (core, [])
  else
    let data := trimChars (line.drop 5)
    if data = [] ∨ data = "[DONE]".data then (core, [])
    else
      match pparse (String.mk data) with
      | none => (core, [])
      | some payload => processEvent core payload

/-- Process the lines of one frame in order, concatenating outputs. -/
def processLines (pparse : String → Option Payload) :
    GCore → List (List Char) → GCore × List StreamResult
  | core, [] => (core, [])
  | core, line :: rest =>
      let r1 := processLine pparse core line
      let r2 := processLines pparse r1.1 rest
      (r2.1, r1.2 ++ r2.2)

/-- One complete SSE frame: `part.split('\n')`, then each line. -/
def processPart (pparse : String → Option Payload) (core : GCore) (part : List Char) :
    GCore × List StreamResult :=
  processLines pparse core (splitOnChar '\n' part)

/-- Process the complete frames of one network chunk in order. -/
def processParts (pparse : String → Option Payload) :
    GCore → List (List Char) → GCore × List StreamResult
  | core, [] => (core, [])
  | core, p :: ps =>
      let r1 := processPart pparse core p
      let r2 := processParts pparse r1.1 ps
      (r2.1, r1.2 ++ r2.2)

/-- Prepend a character to the first piece of a split (helper of
`splitNN`). -/
def consHead (c : Char) : List (List Char) → List (List Char)
  | [] => [[c]]
  | h :: t => (c :: h) :: t

/-- `buffer.split('\n\n')`: greedy leftmost non-overlapping split on the
blank-line separator, keeping empty pieces. -/
def splitNN : List Char → List (List Char)
  | [] => [[]]
  | [c] => [[c]]
  | c :: d :: rest =>
      if c = '\n' ∧ d = '\n' then [] :: splitNN rest
      else consHead c (splitNN (d :: rest))

/-- The last piece of a split (`parts.pop() || ''`). -/
def lastD : List (List Char) → List Char
  | [] => []
  | [p] => p
  | _ :: p :: ps => lastD (p :: ps)

/-- `processChatGptChunk` from src/routes/chat.ts (lines 508–600): append
the chunk to the buffer, split on blank lines, retain the trailing
(possibly incomplete) frame, process the complete frames in order. -/
def processChatGptChunk (pparse : String → Option Payload) (st : GState) (chunk : String) :
    GState × List StreamResult :=
  let full := st.buffer ++ chunk.data
  let parts := splitNN full
  let res := processParts pparse st.core parts.dropLast
  (⟨lastD parts, res.1⟩, res.2)

/-- C7: processing a `response.completed` payload emits exactly one terminal
chunk — finish_reason `"tool_calls"` iff a function_call item was observed
earlier in the stream, else `"stop"`, with usage mapped by `mapUsage` —
followed by the stream-end sentinel, and leaves the state unchanged.  The
second conjunct pins the usage mapping: `input_tokens` to `prompt_tokens`,
`output_tokens` to `completion_tokens`, total defaulting to their sum. -/
theorem responseCompleted_terminal_c7 (core : GCore) (payload : Payload)
    (hk : payload.ptype = some "response.completed") :
    processEvent core payload =
      (core, [.chunk (createChatChunk core {}
          (some (if core.toolCallsSeen then "tool_calls" else "stop"))
          (mapUsage (payload.response.bind (·.usage)))), .done]) ∧
    (∀ i o : Nat, mapUsage (some { input_tokens := some i, output_tokens := some o }) =
      some ⟨i, o, i + o⟩) := by
  constructor
  · unfold processEvent
    rw [if_neg (by simp [hk]), if_neg (by simp [hk]), if_neg (by simp [hk]), if_pos hk]
  · intro i o
    rfl

/-- Witness for C7 on a concrete state and payload carrying usage. -/
theorem responseCompleted_terminal_c7_witness :
    processEvent (createChatGptStreamState "m" "s" 7).core
        { ptype := some "response.completed",
          response := some { usage := some { input_tokens := some 3, output_tokens := some 5 } } } =
      ((createChatGptStreamState "m" "s" 7).core,
        [.chunk (createChatChunk (createChatGptStreamState "m" "s" 7).core {}
          (some "stop") (some ⟨3, 5, 8⟩)), .done]) := by
  have h := (responseCompleted_terminal_c7 (createChatGptStreamState "m" "s" 7).core
    { ptype := some "response.completed",
      response := some { usage := some { input_tokens := some 3, output_tokens := some 5 } } }
    rfl).1
  rw [h]
  rfl

/-- On a `response.output_item.done` payload, `processEvent` is the item
handler. -/
theorem processEvent_done {core : GCore} {payload : Payload} {item : RespItem}
    (hk : payload.ptype = some "response.output_item.done")
    (hi : payload.item = some item) :
    processEvent core payload = processItemDone core item := by
  unfold processEvent
  rw [if_neg (by simp [hk]), if_neg (by simp [hk]),
    if_pos (⟨hk, by simp [hi]⟩ : payload.ptype = some "response.output_item.done" ∧
      payload.item.isSome), hi]

/-- An item whose carried identifier was already processed is skipped with
no output and no state change. -/
theorem processItemDone_given_mem {core : GCore} {item : RespItem} {k : String}
    (hk : itemKeyOf item = some k)
    (hmem : ItemKey.given k ∈ core.processedItemIds) :
    processItemDone core item = (core, []) := by
  unfold processItemDone
  simp only [itemKey, hk, Option.isNone_some, Bool.false_eq_true, if_false]
  rw [if_pos hmem]

/-- Processing an item with a carried identifier records that identifier. -/
theorem processItemDone_given_adds {core : GCore} {item : RespItem} {k : String}
    (hk : itemKeyOf item = some k) :
    ItemKey.given k ∈ (processItemDone core item).1.processedItemIds := by
  by_cases hmem : ItemKey.given k ∈ core.processedItemIds
  · rw [processItemDone_given_mem hk hmem]
    exact hmem
  · unfold processItemDone
    simp only [itemKey, hk, Option.isNone_some, Bool.false_eq_true, if_false]
    rw [if_neg hmem]
    repeat' split
    all_goals exact Finset.mem_insert_self _ _

/-- The item handler never removes dedup entries and never decreases the
tool-call index. -/
theorem processItemDone_mono (core : GCore) (item : RespItem) :
    core.processedItemIds ⊆ (processItemDone core item).1.processedItemIds ∧
    core.toolCallIndex ≤ (processItemDone core item).1.toolCallIndex := by
  unfold processItemDone
  simp only []
  repeat' split
  all_goals constructor
  all_goals first
    | exact fun x hx => hx
    | exact Nat.le_refl _
    | exact fun x hx => Finset.mem_insert_of_mem hx
    | exact Nat.le_succ _

/-- No event removes dedup entries or decreases the tool-call index. -/
theorem processEvent_mono (core : GCore) (payload : Payload) :
    core.processedItemIds ⊆ (processEvent core payload).1.processedItemIds ∧
    core.toolCallIndex ≤ (processEvent core payload).1.toolCallIndex := by
  unfold processEvent
  simp only []
  repeat' split
  all_goals first
    | exact processItemDone_mono _ _
    | exact ⟨fun x hx => hx, Nat.le_refl _⟩

/-- Line-level monotonicity. -/
theorem processLine_mono (pparse : String → Option Payload) (core : GCore) (line : List Char) :
    core.processedItemIds ⊆ (processLine pparse core line).1.processedItemIds ∧
    core.toolCallIndex ≤ (processLine pparse core line).1.toolCallIndex := by
  unfold processLine
  simp only []
  repeat' split
  all_goals first
    | exact processEvent_mono _ _
    | exact ⟨fun x hx => hx, Nat.le_refl _⟩

/-- Monotonicity over a list of lines. -/
theorem processLines_mono (pparse : String → Option Payload) :
    ∀ (lines : List (List Char)) (core : GCore),
      core.processedItemIds ⊆ (processLines pparse core lines).1.processedItemIds ∧
      core.toolCallIndex ≤ (processLines pparse core lines).1.toolCallIndex := by
  intro lines
  induction lines with
  | nil => exact fun core => ⟨fun x hx => hx, Nat.le_refl _⟩
  | cons l rest ih =>
      intro core
      have h1 := processLine_mono pparse core l
      have h2 := ih (processLine pparse core l).1
      exact ⟨Finset.Subset.trans h1.1 h2.1, Nat.le_trans h1.2 h2.2⟩

/-- Frame-level monotonicity. -/
theorem processPart_mono (pparse : String → Option Payload) (core : GCore) (part : List Char) :
    core.processedItemIds ⊆ (processPart pparse core part).1.processedItemIds ∧
    core.toolCallIndex ≤ (processPart pparse core part).1.toolCallIndex :=
  processLines_mono pparse _ core

/-- Monotonicity over a list of frames. -/
theorem processParts_mono (pparse : String → Option Payload) :
    ∀ (parts : List (List Char)) (core : GCore),
      core.processedItemIds ⊆ (processParts pparse core parts).1.processedItemIds ∧
      core.toolCallIndex ≤ (processParts pparse core parts).1.toolCallIndex := by
  intro parts
  induction parts with
  | nil => exact fun core => ⟨fun x hx => hx, Nat.le_refl _⟩
  | cons p rest ih =>
      intro core
      have h1 := processPart_mono pparse core p
      have h2 := ih (processPart pparse core p).1
      exact ⟨Finset.Subset.trans h1.1 h2.1, Nat.le_trans h1.2 h2.2⟩

/-- C4: (1) if two `response.output_item.done` payloads carry the same item
identifier (the item's `id` or `call_id`), processing the second right after
the first produces no output and leaves the state unchanged — the dedup set
suppresses the repeat; (2) over any network chunk, the dedup set and the
tool-call index only grow. -/
theorem outputItemDone_dedup_monotone_c4 :
    (∀ (core : GCore) (p1 p2 : Payload) (i1 i2 : RespItem) (k : String),
      p1.ptype = some "response.output_item.done" → p1.item = some i1 →
      p2.ptype = some "response.output_item.done" → p2.item = some i2 →
      itemKeyOf i1 = some k → itemKeyOf i2 = some k →
      processEvent (processEvent core p1).1 p2 = ((processEvent core p1).1, [])) ∧
    (∀ (pparse : String → Option Payload) (st : GState) (chunk : String),
      st.core.processedItemIds ⊆
        (processChatGptChunk pparse st chunk).1.core.processedItemIds ∧
      st.core.toolCallIndex ≤ (processChatGptChunk pparse st chunk).1.core.toolCallIndex) := by
  constructor
  · intro core p1 p2 i1 i2 k hk1 hi1 hk2 hi2 hid1 hid2
    rw [processEvent_done hk1 hi1, processEvent_done hk2 hi2]
    exact processItemDone_given_mem hid2 (processItemDone_given_adds hid1)
  · intro pparse st chunk
    exact processParts_mono pparse _ st.core

/-- Witness item for C4 (a function_call item with carried id `x`). -/
def c4item : RespItem := { id := some "x", itype := some "function_call" }

/-- Witness payload for C4. -/
def c4payload : Payload := { ptype := some "response.output_item.done", item := some c4item }

/-- Witness state for C4. -/
def c4state : GState := createChatGptStreamState "m" "s" 1

/-- Witness for C4: repeating the same `output_item.done` event yields no
output the second time, and a concrete chunk call only grows the dedup
state. -/
theorem outputItemDone_dedup_monotone_c4_witness :
    processEvent (processEvent c4state.core c4payload).1 c4payload =
      ((processEvent c4state.core c4payload).1, []) ∧
    (c4state.core.processedItemIds ⊆
        (processChatGptChunk (fun _ => none) c4state "x").1.core.processedItemIds ∧
      c4state.core.toolCallIndex ≤
        (processChatGptChunk (fun _ => none) c4state "x").1.core.toolCallIndex) :=
  ⟨outputItemDone_dedup_monotone_c4.1 c4state.core c4payload c4payload c4item c4item "x"
      rfl rfl rfl rfl rfl rfl,
    outputItemDone_dedup_monotone_c4.2 (fun _ => none) c4state "x"⟩

/-! ### C10: chunk-boundary invariance of the SSE buffer mechanics -/

/-- Two-step structural induction on character lists (mirrors the recursion
of `splitNN`). -/
def twoStepInduction {P : List Char → Prop} (h0 : P []) (h1 : ∀ c, P [c])
    (h2 : ∀ c d rest, P rest → P (d :: rest) → P (c :: d :: rest)) : ∀ l, P l
  | [] => h0
  | [c] => h1 c
  | c :: d :: rest =>
      h2 c d rest (twoStepInduction h0 h1 h2 rest) (twoStepInduction h0 h1 h2 (d :: rest))

/-- `splitNN` on a double newline. -/
theorem splitNN_nn (l : List Char) : splitNN ('\n' :: '\n' :: l) = [] :: splitNN l := by
  simp [splitNN]

/-- `splitNN` when the first two characters are not both newlines. -/
theorem splitNN_cons {c d : Char} (l : List Char) (h : ¬ (c = '\n' ∧ d = '\n')) :
    splitNN (c :: d :: l) = consHead c (splitNN (d :: l)) := by
  simp only [splitNN]
  rw [if_neg h]

/-- A split always has at least one piece. -/
theorem splitNN_ne_nil : ∀ l, splitNN l ≠ [] := by
  intro l
  induction l using twoStepInduction with
  | h0 => simp [splitNN]
  | h1 c => simp [splitNN]
  | h2 c d rest ih1 ih2 =>
      by_cases h : c = '\n' ∧ d = '\n'
      · obtain ⟨hc, hd⟩ := h
        subst hc
        subst hd
        rw [splitNN_nn]
        simp
      · rw [splitNN_cons rest h]
        cases hs : splitNN (d :: rest) with
        | nil => exact absurd hs ih2
        | cons a t => simp [consHead]

/-- A single-piece split means the input had no separator: the piece is the
input itself. -/
theorem splitNN_singleton : ∀ l m, splitNN l = [m] → m = l := by
  intro l
  induction l using twoStepInduction with
  | h0 =>
      intro m h
      simp [splitNN] at h
      exact h
  | h1 c =>
      intro m h
      simp [splitNN] at h
      exact h.symm
  | h2 c d rest ih1 ih2 =>
      intro m h
      by_cases hnn : c = '\n' ∧ d = '\n'
      · obtain ⟨hc, hd⟩ := hnn
        subst hc
        subst hd
        rw [splitNN_nn] at h
        cases hs : splitNN rest with
        | nil => exact absurd hs (splitNN_ne_nil rest)
        | cons a t => rw [hs] at h; simp at h
      · rw [splitNN_cons rest hnn] at h
        cases hs : splitNN (d :: rest) with
        | nil => exact absurd hs (splitNN_ne_nil _)
        | cons a t =>
            rw [hs] at h
            simp only [consHead] at h
            have ht : t = [] := by
              cases t with
              | nil => rfl
              | cons b t2 => simp at h
            subst ht
            have hm : m = c :: a := by
              simp at h
              first
                | exact h
                | exact h.symm
            have ha : a = d :: rest := ih2 a (by rw [hs])
            rw [hm, ha]

/-- `dropLast` distributes over a cons with a nonempty tail. -/
theorem dropLast_cons_ne {α : Type} (a : α) (l : List α) (h : l ≠ []) :
    (a :: l).dropLast = a :: l.dropLast := by
  cases l with
  | nil => exact absurd rfl h
  | cons b t => rfl

/-- `dropLast` over an append with a nonempty right part. -/
theorem dropLast_append_ne (A B : List (List Char)) (h : B ≠ []) :
    (A ++ B).dropLast = A ++ B.dropLast := by
  induction A with
  | nil => rfl
  | cons a A2 ih =>
      have hne : A2 ++ B ≠ [] := by
        intro hx
        exact h (List.append_eq_nil.mp hx).2
      rw [List.cons_append, dropLast_cons_ne a _ hne, ih, List.cons_append]

/-- `lastD` skips a cons with a nonempty tail. -/
theorem lastD_cons_ne (a : List Char) (l : List (List Char)) (h : l ≠ []) :
    lastD (a :: l) = lastD l := by
  cases l with
  | nil => exact absurd rfl h
  | cons b t => rfl

/-- `lastD` over an append with a nonempty right part. -/
theorem lastD_append_ne (A B : List (List Char)) (h : B ≠ []) :
    lastD (A ++ B) = lastD B := by
  induction A with
  | nil => rfl
  | cons a A2 ih =>
      have hne : A2 ++ B ≠ [] := by
        intro hx
        exact h (List.append_eq_nil.mp hx).2
      rw [List.cons_append, lastD_cons_ne a _ hne, ih]

/-- The split of an appended input is the complete pieces of the first part
followed by the split of its retained remainder joined with the second
part. -/
theorem splitNN_append : ∀ x y : List Char, splitNN (x ++ y) =
    (splitNN x).dropLast ++ splitNN (lastD (splitNN x) ++ y) := by
  intro x
  induction x using twoStepInduction with
  | h0 => intro y; simp [splitNN, lastD]
  | h1 c =>
      intro y
      show splitNN (c :: y) = ([[c]] : List (List Char)).dropLast ++ splitNN (lastD [[c]] ++ y)
      simp [lastD]
  | h2 c d rest ih1 ih2 =>
      intro y
      by_cases hnn : c = '\n' ∧ d = '\n'
      · obtain ⟨hc, hd⟩ := hnn
        subst hc
        subst hd
        rw [List.cons_append, List.cons_append, splitNN_nn (rest ++ y), splitNN_nn rest, ih1 y]
        cases hs : splitNN rest with
        | nil => exact absurd hs (splitNN_ne_nil rest)
        | cons a t => rfl
      · rw [List.cons_append, List.cons_append, splitNN_cons (rest ++ y) hnn,
          splitNN_cons rest hnn]
        cases hs : splitNN (d :: rest) with
        | nil => exact absurd hs (splitNN_ne_nil _)
        | cons a t =>
            cases t with
            | nil =>
                have ha : a = d :: rest := splitNN_singleton _ a hs
                subst ha
                show consHead c (splitNN (d :: (rest ++ y))) =
                  splitNN ((c :: d :: rest) ++ y)
                rw [List.cons_append, List.cons_append, splitNN_cons (rest ++ y) hnn]
            | cons b t2 =>
                have h1 := ih2 y
                rw [List.cons_append, hs] at h1
                rw [h1]
                rfl

/-- Processing frames distributes over list append: states chain and outputs
concatenate. -/
theorem processParts_append (pparse : String → Option Payload) :
    ∀ (A B : List (List Char)) (core : GCore),
      processParts pparse core (A ++ B) =
        ((processParts pparse (processParts pparse core A).1 B).1,
          (processParts pparse core A).2 ++
            (processParts pparse (processParts pparse core A).1 B).2) := by
  intro A
  induction A with
  | nil =>
      intro B core
      simp [processParts]
  | cons p A2 ih =>
      intro B core
      rw [List.cons_append]
      show (let r1 := processPart pparse core p
            let r2 := processParts pparse r1.1 (A2 ++ B)
            (r2.1, r1.2 ++ r2.2)) = _
      simp only []
      rw [ih B (processPart pparse core p).1]
      show ((processParts pparse (processParts pparse (processPart pparse core p).1 A2).1 B).1,
          (processPart pparse core p).2 ++
            ((processParts pparse (processPart pparse core p).1 A2).2 ++
              (processParts pparse (processParts pparse (processPart pparse core p).1 A2).1 B).2)) = _
  /- the right side of the goal is the same tuple with the append
     reassociated -/
      rw [← List.append_assoc]
      rfl

/-- C10: chunk-boundary invariance.  For every SSE input and every split of
it into two consecutive pieces, feeding the pieces through
`processChatGptChunk` one after the other yields exactly the same final
state and the same concatenated result sequence as feeding the whole input
at once: the trailing incomplete frame is retained in the buffer between
calls. -/
theorem processChatGptChunk_split_invariant_c10
    (pparse : String → Option Payload) (st : GState) (s1 s2 : String) :
    processChatGptChunk pparse st (s1 ++ s2) =
      ((processChatGptChunk pparse (processChatGptChunk pparse st s1).1 s2).1,
        (processChatGptChunk pparse st s1).2 ++
          (processChatGptChunk pparse (processChatGptChunk pparse st s1).1 s2).2) := by
  have hdata : (s1 ++ s2).data = s1.data ++ s2.data := rfl
  unfold processChatGptChunk
  simp only []
  rw [hdata, ← List.append_assoc,
    splitNN_append (st.buffer ++ s1.data) s2.data]
  have hne : splitNN (lastD (splitNN (st.buffer ++ s1.data)) ++ s2.data) ≠ [] :=
    splitNN_ne_nil _
  rw [dropLast_append_ne _ _ hne, lastD_append_ne _ _ hne,
    processParts_append pparse (splitNN (st.buffer ++ s1.data)).dropLast
      (splitNN (lastD (splitNN (st.buffer ++ s1.data)) ++ s2.data)).dropLast st.core]

/- `convertMessages` (chat.ts 266–429).  Modelled universe of the
JavaScript values flowing through it: a field that may hold a string or be
absent is an `Option String`; tool-call argument values are `JVal` (JSON
strings, objects and null); a message's `content` is a string, an array of
object blocks, null/undefined, or some other (truthy) object.
`JSON.parse` and `JSON.stringify` are passed in as parameters (`jparse`,
`jstring`); `jparse s = none` models a parse exception. -/

/-- A JSON-like value carried in tool-call `input`/`arguments` fields. -/
inductive JVal
  | jstr (s : String)
  | jobj (fields : List (String × JVal))
  | jnull

/-- JavaScript truthiness of a `JVal`: objects are truthy (even empty),
`null` and the empty string are falsy. -/
def truthyJ : JVal → Bool
  | .jstr s => decide (s ≠ "")
  | .jobj _ => true
  | .jnull => false

/-- `a || b` on optional JS values (undefined is falsy). -/
def jOrOpt (a b : Option JVal) : Option JVal :=
  match a with
  | some v => if truthyJ v then some v else b
  | none => b

/-- `a || d` on an optional JS value with a JS-value default. -/
def jOrD (a : Option JVal) (d : JVal) : JVal :=
  match a with
  | some v => if truthyJ v then v else d
  | none => d

/-- `a || b` on optional strings, JavaScript truthiness. -/
def strOrOpt (a b : Option String) : Option String :=
  match truthyOpt a with
  | some s => some s
  | none => b

/-- `a || d` on an optional string with a string default. -/
def strOrD (a : Option String) (d : String) : String :=
  match truthyOpt a with
  | some s => s
  | none => d

/-- JavaScript `String.trimEnd`. -/
def trimEndStr (s : String) : String :=
  String.mk (s.data.reverse.dropWhile isWsChar).reverse

/-- The `image_url` field of an inbound `image_url` block: a string, an
object with an optional `url` field, or absent. -/
inductive ImgUrlField
  | ustr (s : String)
  | uobj (url : Option String)
  | unone

/-- The `source` of a Claude-format `image` block. -/
inductive ImgSrc
  | b64 (mediaType data : String)
  | ext (url : String)

/-- A content block, inbound (OpenAI shape) or produced by conversion.
`text` carries the block's `text` field when that field is a string
(`none` = absent).  `tool_use_in` is an inbound Claude-format `tool_use`
block (opaque payload, passed through unchanged); `tool_use` is one the
conversion synthesizes.  `otherB` is an object block of any other type
(opaque payload); non-object array elements, which the source also passes
through, are outside the modelled universe. -/
inductive Blk
  | text (t : Option String)
  | image_url (f : ImgUrlField)
  | image (src : ImgSrc)
  | tool_use_in (payload : String)
  | tool_use (id : Option String) (name : Option String) (input : JVal)
  | tool_result (tool_use_id : Option String) (content : Option String)
  | otherB (payload : String)

/-- A message `content` value: a string, an array of blocks,
null/undefined, or some other (truthy, non-array) object. -/
inductive JContent
  | cstr (s : String)
  | carr (bs : List Blk)
  | cnone
  | cother (tag : String)

/-- JavaScript truthiness of a `content` value (arrays and objects are
truthy even when empty). -/
def truthyContent : JContent → Bool
  | .cstr s => decide (s ≠ "")
  | .carr _ => true
  | .cnone => false
  | .cother _ => true

/-- `msg.content ?? ''` (nullish coalescing). -/
def nullishContent : JContent → JContent
  | .cnone => .cstr ""
  | c => c

/-- A character the JavaScript regexp `.` does not match (line
terminators). -/
def isLineTerm (c : Char) : Bool :=
  decide (c = '\n' ∨ c = '\r' ∨ c = '\u2028' ∨ c = '\u2029')

/-- The regexp match of `convertContentBlockToClaude` on a `data:` URL:
media type (non-empty, up to the first `;`), the literal `;base64,`, then
non-empty data containing no line terminator. -/
def parseDataUrl (u : String) : Option (String × String) :=
  let cs := u.data
  if cs.take 5 = "data:".data then
    let rest := cs.drop 5
    let mt := rest.takeWhile (fun c => decide (c ≠ ';'))
    let rest2 := rest.dropWhile (fun c => decide (c ≠ ';'))
    if mt ≠ [] ∧ rest2.take 8 = ";base64,".data then
      let d := rest2.drop 8
      if d ≠ [] ∧ d.all (fun c => !isLineTerm c) then
        some (String.mk mt, String.mk d)
      else none
    else none
  else none

/-- `convertContentBlockToClaude` (chat.ts 266–311): text blocks are
rebuilt with `text: block.text || ''`; `image_url` blocks become Claude
`image` blocks (base64 source for a matching `data:` URL, external URL
otherwise) or `null` when no url is present; every other block passes
through unchanged. -/
def convertContentBlockToClaude : Blk → Option Blk
  | .text t => some (.text (some (t.getD "")))
  | .image_url f =>
      let url : Option String :=
        match f with
        | .ustr s => some s
        | .uobj u => u
        | .unone => none
      (match truthyOpt url with
       | none => none
       | some u =>
           if u.startsWith "data:" then
             match parseDataUrl u with
             | some (mt, d) => some (.image (.b64 mt d))
             | none => some (.image (.ext u))
           else some (.image (.ext u)))
  | b => some b

/-- The filter applied to an assistant message's content array (chat.ts
343–351 and 390–396): keep text blocks whose `text` is a string (rebuilt as
fresh text blocks), keep `tool_use` blocks as they are, drop everything
else. -/
def asstKeepBlk : Blk → Option Blk
  | .text (some s) => some (.text (some s))
  | .tool_use_in p => some (.tool_use_in p)
  | .tool_use id n i => some (.tool_use id n i)
  | _ => none

/-- The base content of an assistant message carrying `tool_calls` (chat.ts
338–354): `[]` when `msg.content` is falsy, one text block for a string,
the filtered blocks for an array, `[]` for any other truthy value. -/
def asstBase (c : JContent) : List Blk :=
  if truthyContent c then
    match c with
    | .cstr s => [.text (some s)]
    | .carr bs => bs.filterMap asstKeepBlk
    | _ => []
  else []

/-- One entry of `msg.tool_calls`.  `fname`/`fargs` stand for
`tc.function?.name` and `tc.function?.arguments` (absent when `function`
is). -/
structure OToolCall where
  id : Option String := none
  fname : Option String := none
  fargs : Option JVal := none
  name : Option String := none
  args : Option JVal := none

/-- The `tool_use` block built for one `tool_calls` entry (chat.ts
355–366): `input = tc.function?.arguments || tc.arguments || {}`; a string
input is parsed with `JSON.parse(input || '{}')`, a parse failure yielding
`{raw: input}`; the name is `tc.function?.name || tc.name`. -/
def mkTcToolUse (jparse : String → Option JVal) (tc : OToolCall) : Blk :=
  let i0 : JVal := jOrD (jOrOpt tc.fargs tc.args) (.jobj [])
  let i1 : JVal :=
    match i0 with
    | .jstr s =>
        (match jparse (if s = "" then lb ++ rb else s) with
         | some v => v
         | none => .jobj [("raw", JVal.jstr s)])
    | v => v
  .tool_use tc.id (strOrOpt tc.fname tc.name) i1

/-- An inbound message.  `mtype` is `msg.type`; `tool_calls` absent and
empty are both `[]` (`msg.tool_calls?.length` is falsy for both). -/
structure InMsg where
  mtype : Option String := none
  role : Option String := none
  content : JContent := .cnone
  tool_calls : List OToolCall := []
  call_id : Option String := none
  name : Option String := none
  input : Option JVal := none
  arguments : Option JVal := none
  output : Option String := none
  tool_call_id : Option String := none

/-- A converted message (`role` is always a string in the output). -/
structure OutMsg where
  role : String
  content : JContent

/-- The `tool_use` block built for a `custom_tool_call`/`function_call`
item (chat.ts 316–321): `toolInput = msg.input || msg.arguments`; a string
value is `JSON.parse`d, a parse failure yielding `{command: toolInput}`;
a falsy result becomes `{}`. -/
def mkItemToolUse (jparse : String → Option JVal) (msg : InMsg) : Blk :=
  let t0 := jOrOpt msg.input msg.arguments
  let t1 : Option JVal :=
    match t0 with
    | some (.jstr s) =>
        some (match jparse s with
              | some v => v
              | none => .jobj [("command", JVal.jstr s)])
    | x => x
  .tool_use msg.call_id msg.name (jOrD t1 (.jobj []))

/-- Append a `tool_use` to the previous assistant message's content array,
or start a new assistant message (chat.ts 322–324).  The accumulator holds
the converted messages in reverse (a `push` is a cons, the last pushed
message is the head). -/
def pushAsstToolUse (acc : List OutMsg) (tu : Blk) : List OutMsg :=
  match acc with
  | ⟨"assistant", .carr bs⟩ :: rest => ⟨"assistant", .carr (bs ++ [tu])⟩ :: rest
  | _ => ⟨"assistant", .carr [tu]⟩ :: acc

/-- Append a `tool_result` to the previous user message when that message's
content is an array whose first block is a `tool_result`, else start a new
user message (chat.ts 328–332 and 369–373). -/
def pushUserToolResult (acc : List OutMsg) (tr : Blk) : List OutMsg :=
  match acc with
  | ⟨"user", .carr bs⟩ :: rest =>
      if (match bs with
          | Blk.tool_result _ _ :: _ => true
          | _ => false) then
        ⟨"user", .carr (bs ++ [tr])⟩ :: rest
      else ⟨"user", .carr [tr]⟩ :: ⟨"user", .carr bs⟩ :: rest
  | _ => ⟨"user", .carr [tr]⟩ :: acc

/-- The content stored in a `tool` message's `tool_result` block: the
content itself when it is a string, otherwise its `JSON.stringify`
serialization (chat.ts 369). -/
def toolMsgContent (jstring : JContent → Option String) : JContent → Option String
  | .cstr s => some s
  | c => jstring c

/-- One iteration of the conversion loop of `convertMessages` (chat.ts
315–406), on the reversed accumulator: tool-call items, tool-output items,
messages without a role (skipped), assistant messages with `tool_calls`,
`tool`-role messages, assistant and user messages with array content, and
the pass-through fallback, in the source's branch order. -/
def convStep (jparse : String → Option JVal) (jstring : JContent → Option String)
    (acc : List OutMsg) (msg : InMsg) : List OutMsg :=
  if msg.mtype = some "custom_tool_call" ∨ msg.mtype = some "function_call" then
    pushAsstToolUse acc (mkItemToolUse jparse msg)
  else if msg.mtype = some "custom_tool_call_output" ∨
      msg.mtype = some "function_call_output" then
    pushUserToolResult acc (.tool_result msg.call_id (some (strOrD msg.output "")))
  else if truthyOpt msg.role = none then acc
  else if msg.role = some "assistant" ∧ msg.tool_calls.isEmpty = false then
    ⟨"assistant",
      .carr (asstBase msg.content ++ msg.tool_calls.map (mkTcToolUse jparse))⟩ :: acc
  else if msg.role = some "tool" then
    pushUserToolResult acc
      (.tool_result msg.tool_call_id (toolMsgContent jstring msg.content))
  else
    match msg.role, msg.content with
    | some "assistant", .carr bs =>
        ⟨"assistant",
          (match bs.filterMap asstKeepBlk with
           | [] => JContent.cstr ""
           | c => JContent.carr c)⟩ :: acc
    | some "user", .carr bs =>
        ⟨"user",
          (match bs.filterMap convertContentBlockToClaude with
           | [] => JContent.cstr ""
           | c => JContent.carr c)⟩ :: acc
    | r, c => ⟨r.getD "", nullishContent c⟩ :: acc

/-- The conversion loop of `convertMessages`: fold over the input, then
restore the push order. -/
def convertMessagesPre (jparse : String → Option JVal)
    (jstring : JContent → Option String) (msgs : List InMsg) : List OutMsg :=
  (msgs.foldl (convStep jparse jstring) []).reverse

/-- The post-pass on one block (chat.ts 420–424):
`block.text = (block.text?.trimEnd()) || '...'` for text blocks, others
untouched. -/
def fixBlk : Blk → Blk
  | .text t => .text (some (strOrD (t.map trimEndStr) "..."))
  | b => b

/-- The post-pass on one assistant content value (chat.ts 413–425): a
string is trimmed at the end and defaulted to `"..."`; an empty array
becomes a single `"..."` text block; a non-empty array has its text blocks
fixed; any other value is untouched. -/
def fixContent : JContent → JContent
  | .cstr s => .cstr (strOrD (some (trimEndStr s)) "...")
  | .carr [] => .carr [.text (some "...")]
  | .carr bs => .carr (bs.map fixBlk)
  | c => c

/-- The post-pass on one message (chat.ts 410–412): only assistant
messages are touched. -/
def fixMsg (m : OutMsg) : OutMsg :=
  if m.role = "assistant" then ⟨m.role, fixContent m.content⟩ else m

/-- `convertMessages` (chat.ts 313–429): the conversion loop followed by
the non-empty-assistant-content post-pass. -/
def convertMessages (jparse : String → Option JVal)
    (jstring : JContent → Option String) (msgs : List InMsg) : List OutMsg :=
  (convertMessagesPre jparse jstring msgs).map fixMsg

/-- A concrete assistant message with blank string content. -/
def c5msg : InMsg := { role := some "assistant", content := JContent.cstr "  " }

/-- `a || d` on a present string is never empty when the default is not. -/
theorem strOrD_some_ne (s d : String) (hd : d ≠ "") : strOrD (some s) d ≠ "" := by
  by_cases h : s = ""
  · simpa [strOrD, truthyOpt, h] using hd
  · simp [strOrD, truthyOpt, h]

/-- A block the post-pass returns as a text block carries a non-empty
text. -/
theorem fixBlk_text (b : Blk) (t : Option String) (h : fixBlk b = Blk.text t) :
    ∃ s, t = some s ∧ s ≠ "" := by
  cases b with
  | text t0 =>
      simp only [fixBlk] at h
      cases h
      cases t0 with
      | none => exact ⟨"...", rfl, by decide⟩
      | some u => exact ⟨_, rfl, strOrD_some_ne (trimEndStr u) "..." (by decide)⟩
  | image_url f => simp [fixBlk] at h
  | image src => simp [fixBlk] at h
  | tool_use_in p => simp [fixBlk] at h
  | tool_use id n i => simp [fixBlk] at h
  | tool_result id c => simp [fixBlk] at h
  | otherB p => simp [fixBlk] at h

/-- C5: every assistant message produced by `convertMessages` has non-empty
content — string content is never `""`, block-array content is never `[]`,
and every text block of an assistant message carries a non-empty text.
The trailing conjuncts pin the placeholder mechanism of the post-pass:
blank string content becomes `"..."`, an empty block array becomes a
single `"..."` text block, and a text block whose end-trimmed text is
empty is given the text `"..."`. -/
theorem convertMessages_assistant_nonempty_c5
    (jparse : String → Option JVal) (jstring : JContent → Option String)
    (msgs : List InMsg) (m : OutMsg)
    (hm : m ∈ convertMessages jparse jstring msgs)
    (hrole : m.role = "assistant") :
    ((∀ s, m.content = JContent.cstr s → s ≠ "") ∧
      (∀ bs, m.content = JContent.carr bs → bs ≠ [] ∧
        ∀ b ∈ bs, ∀ t, b = Blk.text t → ∃ s, t = some s ∧ s ≠ "")) ∧
    (∀ s, trimEndStr s = "" →
      fixMsg ⟨"assistant", JContent.cstr s⟩ = ⟨"assistant", JContent.cstr "..."⟩) ∧
    fixMsg ⟨"assistant", JContent.carr []⟩
      = ⟨"assistant", JContent.carr [Blk.text (some "...")]⟩ ∧
    (∀ s, trimEndStr s = "" → fixBlk (Blk.text (some s)) = Blk.text (some "...")) := by
  refine ⟨?_, ?_, rfl, ?_⟩
  · obtain ⟨m0, hm0, hfix⟩ := List.mem_map.mp hm
    by_cases hr : m0.role = "assistant"
    · have hcontent : m.content = fixContent m0.content := by
        rw [← hfix]
        simp [fixMsg, hr]
      rw [hcontent]
      rcases m0.content with s0 | bs0 | _ | tag
      · refine ⟨?_, ?_⟩
        · intro s hs
          simp only [fixContent] at hs
          cases hs
          exact strOrD_some_ne (trimEndStr s0) "..." (by decide)
        · intro bs hbs
          simp [fixContent] at hbs
      · cases bs0 with
        | nil =>
            refine ⟨?_, ?_⟩
            · intro s hs
              simp [fixContent] at hs
            · intro bs hbs
              simp only [fixContent] at hbs
              cases hbs
              refine ⟨List.cons_ne_nil _ _, ?_⟩
              intro b hb t hbt
              rw [List.mem_singleton] at hb
              subst hb
              cases hbt
              exact ⟨"...", rfl, by decide⟩
        | cons b0 bs0' =>
            refine ⟨?_, ?_⟩
            · intro s hs
              simp [fixContent] at hs
            · intro bs hbs
              simp only [fixContent] at hbs
              cases hbs
              refine ⟨by simp, ?_⟩
              intro b hb t hbt
              obtain ⟨a, ha, hfa⟩ := List.mem_map.mp hb
              exact fixBlk_text a t (hfa.trans hbt)
      · exact ⟨fun s hs => by simp [fixContent] at hs,
               fun bs hbs => by simp [fixContent] at hbs⟩
      · exact ⟨fun s hs => by simp [fixContent] at hs,
               fun bs hbs => by simp [fixContent] at hbs⟩
    · have hfm : fixMsg m0 = m0 := by simp [fixMsg, hr]
      rw [hfm] at hfix
      rw [hfix] at hr
      exact absurd hrole hr
  · intro s h
    simp [fixMsg, fixContent, strOrD, truthyOpt, h]
  · intro s h
    simp [fixBlk, strOrD, truthyOpt, h]

/-- C5 witness: converting a single assistant message whose content is two
blanks yields the `"..."` placeholder, and the theorem's non-emptiness
conclusion applies to it. -/
theorem convertMessages_assistant_nonempty_c5_witness :
    (⟨"assistant", JContent.cstr "..."⟩ : OutMsg)
        ∈ convertMessages (fun _ => none) (fun _ => none) [c5msg]
      ∧ ("..." : String) ≠ "" := by
  have hmem : (⟨"assistant", JContent.cstr "..."⟩ : OutMsg)
      ∈ convertMessages (fun _ => none) (fun _ => none) [c5msg] := by
    have he : convertMessages (fun _ => none) (fun _ => none) [c5msg]
        = [⟨"assistant", JContent.cstr "..."⟩] := rfl
    rw [he]
    exact List.mem_singleton.mpr rfl
  exact ⟨hmem,
    (convertMessages_assistant_nonempty_c5 (fun _ => none) (fun _ => none) [c5msg]
      ⟨"assistant", JContent.cstr "..."⟩ hmem rfl).1.1 "..." rfl⟩
